import Mathlib

/-!
Verification of `make.py`, the meaningness.com EPUB generator.

The development shallowly embeds the program: HTML documents are modelled as
a tree type (`HtmlEl`, mirroring the node abstraction of `dhtmlparser`:
tag name, attribute mapping, children), the filesystem as finite maps from
paths to parsed documents / raw bytes, the network as a function from URLs to
optional byte lists (`none` models a transport failure, i.e. an `IOError`
raised by `requests`), and Python exceptions as an `Except PyErr` result.
File contents are modelled post-parse: where the script does
`dhtmlparser.parseString(open(p).read())`, the model looks the parsed tree up
directly.  Python string operations (`split`, `capitalize`, `startswith`,
`replace`, `os.path.basename`, `os.path.join`) are implemented character by
character with their Python semantics, and `hashlib.sha256(..).hexdigest()`
is implemented in full (FIPS 180-4) and checked against the standard test
vectors below.
-/

set_option maxRecDepth 100000

/-! ### Python string primitives -/

/-- Python `s.startswith(pat)`, on character lists (pattern first). -/
def startsWithL : List Char → List Char → Bool
  | [], _ => true
  | _ :: _, [] => false
  | p :: ps, c :: cs => p == c && startsWithL ps cs

/-- Python `pat in s` (substring containment), on character lists. -/
def containsSubL (pat : List Char) : List Char → Bool
  | [] => startsWithL pat []
  | c :: cs => startsWithL pat (c :: cs) || containsSubL pat cs

/-- Python `s.split(sep)` for a one-character separator, on character lists.
Always returns a non-empty list of fragments. -/
def splitOnCharL (sep : Char) : List Char → List (List Char)
  | [] => [[]]
  | c :: cs =>
    match splitOnCharL sep cs with
    | [] => [[]]
    | h :: t => if c == sep then [] :: h :: t else (c :: h) :: t

/-- Python `s.split(sep)` for a one-character separator, on strings. -/
def pySplitC (sep : Char) (s : String) : List String :=
  (splitOnCharL sep s.data).map (fun l => ⟨l⟩)

/-- Python `s.capitalize()`: first character uppercased, the rest lowercased. -/
def capitalizeL : List Char → List Char
  | [] => []
  | c :: cs => c.toUpper :: cs.map Char.toLower

/-- Python `s.capitalize()` on strings. -/
def pyCapitalize (s : String) : String := ⟨capitalizeL s.data⟩

/-- Python `s.replace("../", "")`: scan left to right, dropping each
(non-overlapping) occurrence of the pattern. -/
def stripDotDotL : List Char → List Char
  | '.' :: '.' :: '/' :: rest => stripDotDotL rest
  | c :: rest => c :: stripDotDotL rest
  | [] => []

/-- Python `s.startswith(pat)` on strings. -/
def strStarts (pat s : String) : Bool := startsWithL pat.data s.data

/-- `os.path.basename`: the component after the last slash. -/
def basename (s : String) : String := (pySplitC '/' s).getLastD ""

/-- `os.path.join a b` for a relative second component. -/
def joinPath (a b : String) : String := a ++ "/" ++ b

/-! ### SHA-256 (FIPS 180-4), as used by `hashlib.sha256(url.encode("utf-8")).hexdigest()` -/

/-- Truncation to a 32-bit word. -/
def w32 (n : Nat) : Nat := n % 4294967296

/-- Right rotation of a 32-bit word. -/
def rotr (k x : Nat) : Nat := w32 ((x >>> k) ||| (x <<< (32 - k)))

/-- Bitwise complement of a 32-bit word. -/
def bnot32 (x : Nat) : Nat := x ^^^ 4294967295

/-- SHA-256 small sigma 0. -/
def ssig0 (x : Nat) : Nat := rotr 7 x ^^^ rotr 18 x ^^^ (x >>> 3)

/-- SHA-256 small sigma 1. -/
def ssig1 (x : Nat) : Nat := rotr 17 x ^^^ rotr 19 x ^^^ (x >>> 10)

/-- SHA-256 big sigma 0. -/
def bsig0 (x : Nat) : Nat := rotr 2 x ^^^ rotr 13 x ^^^ rotr 22 x

/-- SHA-256 big sigma 1. -/
def bsig1 (x : Nat) : Nat := rotr 6 x ^^^ rotr 11 x ^^^ rotr 25 x

/-- Big-endian 8-byte encoding of a length in bits. -/
def beBytes8 (n : Nat) : List Nat :=
  [(n >>> 56) &&& 255, (n >>> 48) &&& 255, (n >>> 40) &&& 255, (n >>> 32) &&& 255,
   (n >>> 24) &&& 255, (n >>> 16) &&& 255, (n >>> 8) &&& 255, n &&& 255]

/-- SHA-256 message padding. -/
def padBytes (msg : List Nat) : List Nat :=
  msg ++ [128] ++ List.replicate ((119 - msg.length % 64) % 64) 0 ++ beBytes8 (8 * msg.length)

/-- Big-endian grouping of bytes into 32-bit words. -/
def bytesToWords : List Nat → List Nat
  | a :: b :: c :: d :: rest => (((a * 256 + b) * 256 + c) * 256 + d) :: bytesToWords rest
  | _ => []

/-- Grouping of words into 16-word blocks. -/
def blocksOf : List Nat → List (List Nat)
  | w0 :: w1 :: w2 :: w3 :: w4 :: w5 :: w6 :: w7 ::
    w8 :: w9 :: w10 :: w11 :: w12 :: w13 :: w14 :: w15 :: rest =>
      [w0, w1, w2, w3, w4, w5, w6, w7, w8, w9, w10, w11, w12, w13, w14, w15] :: blocksOf rest
  | _ => []

/-- One step of the message-schedule extension. -/
def schedStep (w : List Nat) : List Nat :=
  w ++ [w32 (ssig1 (w.getD (w.length - 2) 0) + w.getD (w.length - 7) 0 +
             ssig0 (w.getD (w.length - 15) 0) + w.getD (w.length - 16) 0)]

/-- Message-schedule extension by `k` further words. -/
def sched (w : List Nat) : Nat → List Nat
  | 0 => w
  | k + 1 => sched (schedStep w) k

/-- The SHA-256 round constants. -/
def K64 : List Nat :=
  [1116352408, 1899447441, 3049323471, 3921009573, 961987163, 1508970993,
   2453635748, 2870763221, 3624381080, 310598401, 607225278, 1426881987,
   1925078388, 2162078206, 2614888103, 3248222580, 3835390401, 4022224774,
   264347078, 604807628, 770255983, 1249150122, 1555081692, 1996064986,
   2554220882, 2821834349, 2952996808, 3210313671, 3336571891, 3584528711,
   113926993, 338241895, 666307205, 773529912, 1294757372, 1396182291,
   1695183700, 1986661051, 2177026350, 2456956037, 2730485921, 2820302411,
   3259730800, 3345764771, 3516065817, 3600352804, 4094571909, 275423344,
   430227734, 506948616, 659060556, 883997877, 958139571, 1322822218,
   1537002063, 1747873779, 1955562222, 2024104815, 2227730452, 2361852424,
   2428436474, 2756734187, 3204031479, 3329325298]

/-- The SHA-256 initial hash value. -/
def H0 : List Nat :=
  [1779033703, 3144134277, 1013904242, 2773480762, 1359893119,
   2600822924, 528734635, 1541459225]

/-- One SHA-256 compression round on the working state `[a,b,c,d,e,f,g,h]`. -/
def compressStep (st : List Nat) (kw : Nat × Nat) : List Nat :=
  let a := st.getD 0 0
  let b := st.getD 1 0
  let c := st.getD 2 0
  let d := st.getD 3 0
  let e := st.getD 4 0
  let f := st.getD 5 0
  let g := st.getD 6 0
  let h := st.getD 7 0
  let ch := (e &&& f) ^^^ (bnot32 e &&& g)
  let maj := (a &&& b) ^^^ (a &&& c) ^^^ (b &&& c)
  let t1 := w32 (h + bsig1 e + ch + kw.1 + kw.2)
  let t2 := w32 (bsig0 a + maj)
  [w32 (t1 + t2), a, b, c, w32 (d + t1), e, f, g]

/-- Processing of one 16-word block. -/
def compressBlock (h : List Nat) (blk : List Nat) : List Nat :=
  let fin := (K64.zip (sched blk 48)).foldl compressStep h
  (h.zip fin).map (fun p => w32 (p.1 + p.2))

/-- The SHA-256 digest of a byte list, as eight 32-bit words. -/
def sha256Words (msg : List Nat) : List Nat :=
  (blocksOf (bytesToWords (padBytes msg))).foldl compressBlock H0

/-- Lower-case hexadecimal digit. -/
def hexDigit (n : Nat) : Char := if n < 10 then Char.ofNat (48 + n) else Char.ofNat (87 + n)

/-- Eight hexadecimal digits of a 32-bit word. -/
def toHex8 (n : Nat) : List Char :=
  (List.range 8).map (fun i => hexDigit ((n >>> (28 - 4 * i)) &&& 15))

/-- The SHA-256 hex digest of a byte list. -/
def sha256hexBytes (msg : List Nat) : String := ⟨(sha256Words msg).flatMap toHex8⟩

/-- UTF-8 encoding of one character (RFC 3629), as Python `str.encode("utf-8")`. -/
def utf8EncodeCharM (c : Char) : List Nat :=
  let n := c.toNat
  if n < 128 then [n]
  else if n < 2048 then [192 ||| (n >>> 6), 128 ||| (n &&& 63)]
  else if n < 65536 then
    [224 ||| (n >>> 12), 128 ||| ((n >>> 6) &&& 63), 128 ||| (n &&& 63)]
  else
    [240 ||| (n >>> 18), 128 ||| ((n >>> 12) &&& 63), 128 ||| ((n >>> 6) &&& 63), 128 ||| (n &&& 63)]

/-- UTF-8 encoding of a string. -/
def utf8Encode (s : String) : List Nat := s.data.flatMap utf8EncodeCharM

/-- `hashlib.sha256(s.encode("utf-8")).hexdigest()`. -/
def sha256hexStr (s : String) : String := sha256hexBytes (utf8Encode s)

/-! ### The DOM model (`dhtmlparser` node abstraction) -/

/-- A parsed HTML node: a text node, or an element with tag name, attribute
mapping (`params`) and children.  `dhtmlparser`'s `replaceWith` of an empty
parse turns an element into a blank node, modelled as `.tag "" [] []`. -/
inductive HtmlEl where
  | text (s : String)
  | tag (name : String) (params : List (String × String)) (childs : List HtmlEl)

mutual
def decEqT : (a b : HtmlEl) → Decidable (a = b)
  | .text s, .text t =>
    match String.decEq s t with
    | .isTrue h => .isTrue (by rw [h])
    | .isFalse h => .isFalse (by intro hh; cases hh; exact h rfl)
  | .text _, .tag _ _ _ => .isFalse (by intro h; cases h)
  | .tag _ _ _, .text _ => .isFalse (by intro h; cases h)
  | .tag n ps cs, .tag m qs ds =>
    match String.decEq n m, (inferInstance : Decidable (ps = qs)), decEqL cs ds with
    | .isTrue h1, .isTrue h2, .isTrue h3 => .isTrue (by rw [h1, h2, h3])
    | .isFalse h1, _, _ => .isFalse (by intro h; cases h; exact h1 rfl)
    | _, .isFalse h2, _ => .isFalse (by intro h; cases h; exact h2 rfl)
    | _, _, .isFalse h3 => .isFalse (by intro h; cases h; exact h3 rfl)
def decEqL : (a b : List HtmlEl) → Decidable (a = b)
  | [], [] => .isTrue rfl
  | [], _ :: _ => .isFalse (by intro h; cases h)
  | _ :: _, [] => .isFalse (by intro h; cases h)
  | a :: as, b :: bs =>
    match decEqT a b, decEqL as bs with
    | .isTrue h1, .isTrue h2 => .isTrue (by rw [h1, h2])
    | .isFalse h1, _ => .isFalse (by intro h; cases h; exact h1 rfl)
    | _, .isFalse h2 => .isFalse (by intro h; cases h; exact h2 rfl)
end

instance : DecidableEq HtmlEl := decEqT

/-- Structural induction over `HtmlEl` with a membership hypothesis for the
children of an element. -/
theorem HtmlEl.indOn (motive : HtmlEl → Prop)
    (ht : ∀ s, motive (.text s))
    (hg : ∀ n ps cs, (∀ c ∈ cs, motive c) → motive (.tag n ps cs)) :
    ∀ t, motive t
  | .text s => ht s
  | .tag n ps cs => hg n ps cs (fun c hc => HtmlEl.indOn motive ht hg c)
termination_by t => sizeOf t
decreasing_by
  have := List.sizeOf_lt_of_mem hc
  simp only [HtmlEl.tag.sizeOf_spec]
  omega

/-- Association-list lookup, modelling Python `dict` access (`d.get(k)`). -/
def lookupA {α : Type} : List (String × α) → String → Option α
  | [], _ => none
  | (k, v) :: ps, key => if k == key then some v else lookupA ps key

/-- Attribute lookup on an attribute mapping. -/
def getParam (ps : List (String × String)) (key : String) : Option String := lookupA ps key

/-- Python `d[k] = v` on an attribute mapping. -/
def setParam : List (String × String) → String → String → List (String × String)
  | [], key, v => [(key, v)]
  | (k, w) :: ps, key, v => if k == key then (key, v) :: ps else (k, w) :: setParam ps key v

/-- Python `del d[k]` on an attribute mapping. -/
def delParam : List (String × String) → String → List (String × String)
  | [], _ => []
  | (k, w) :: ps, key => if k == key then delParam ps key else (k, w) :: delParam ps key

mutual
/-- All nodes of a tree (the node itself, then its descendants) in document
order — the order in which `dhtmlparser`'s depth-first `find` visits them. -/
def nodesOfT : HtmlEl → List HtmlEl
  | .text s => [.text s]
  | .tag n ps cs => .tag n ps cs :: nodesOfL cs
def nodesOfL : List HtmlEl → List HtmlEl
  | [] => []
  | c :: cs => nodesOfT c ++ nodesOfL cs
end

/-- `dom.find(...)`: all nodes matching a predicate, in document order. -/
def findAll (p : HtmlEl → Bool) (t : HtmlEl) : List HtmlEl := (nodesOfT t).filter p

/-- Serialization of an attribute mapping. -/
def renderParams : List (String × String) → String
  | [] => ""
  | (k, v) :: ps => " " ++ k ++ "=\"" ++ v ++ "\"" ++ renderParams ps

mutual
/-- Serialization of a node back to HTML text; a blank node (empty tag name,
the residue of `replaceWith` with an empty parse) renders as its children.
Every element is serialized with an explicit end tag (void elements such as
`img` included), a uniform simplification of the serializer. -/
def renderT : HtmlEl → String
  | .text s => s
  | .tag n ps cs =>
    if n == "" then renderL cs
    else "<" ++ n ++ renderParams ps ++ ">" ++ renderL cs ++ "</" ++ n ++ ">"
def renderL : List HtmlEl → String
  | [] => ""
  | c :: cs => renderT c ++ renderL cs
end

/-- `el.getContent()`: the serialized children of a node. -/
def getContent : HtmlEl → String
  | .text s => s
  | .tag _ _ cs => renderL cs

/-- The blank node left behind by `el.replaceWith(dhtmlparser.parseString(""))`. -/
def emptyEl : HtmlEl := .tag "" [] []

mutual
/-- One `replace(body.find(...))` pass of `remove_fluff`: every matching
element (topmost first — matches found inside an already replaced element
were detached by the outer replacement) becomes a blank node. -/
def cleanPassT (p : HtmlEl → Bool) : HtmlEl → HtmlEl
  | .text s => .text s
  | .tag n ps cs => if p (.tag n ps cs) then emptyEl else .tag n ps (cleanPassL p cs)
def cleanPassL (p : HtmlEl → Bool) : List HtmlEl → List HtmlEl
  | [] => []
  | c :: cs => cleanPassT p c :: cleanPassL p cs
end

/-- Selector `find(nm, ...)` on tag name alone. -/
def tagNameIs (nm : String) (e : HtmlEl) : Bool :=
  match e with
  | .tag n _ _ => n == nm
  | .text _ => false

/-- Selector `find("div", attrs)` matching one attribute exactly. -/
def divAttr (key val : String) (e : HtmlEl) : Bool :=
  match e with
  | .tag n ps _ => n == "div" && getParam ps key == some val
  | .text _ => false

/-- Selector `find("div", fn=lambda x: "block-meaningness-navigation" in x.params.get("class", ""))`. -/
def divClassSubNav (e : HtmlEl) : Bool :=
  match e with
  | .tag n ps _ =>
    n == "div" && containsSubL "block-meaningness-navigation".data ((getParam ps "class").getD "").data
  | .text _ => false

/-- Selector `find("nav", {"class": "clearfix"})`. -/
def navClearfix (e : HtmlEl) : Bool :=
  match e with
  | .tag n ps _ => n == "nav" && getParam ps "class" == some "clearfix"
  | .text _ => false

/-- The eleven removal selectors of `remove_fluff`, in source order. -/
def sels : List (HtmlEl → Bool) :=
  [divAttr "class" "nocontent", divAttr "class" "tertiary-content-wrapper",
   divAttr "class" "more-link", divAttr "class" "view-content",
   divAttr "class" "block-content content", divAttr "class" "region region-content-aside",
   divAttr "role" "search", divClassSubNav, tagNameIs "header",
   divAttr "id" "tertiary-content-wrapper", navClearfix]

/-- Sequential application of removal passes. -/
def applySels (L : List (HtmlEl → Bool)) (b : HtmlEl) : HtmlEl :=
  L.foldl (fun t p => cleanPassT p t) b

/-- The mutation performed by `remove_fluff`: the eleven removal passes in
source order. -/
def remove_fluff_tree (b : HtmlEl) : HtmlEl := applySels sels b

/-! ### Errors, the book model and the conversion pipeline -/

/-- The Python exceptions the script can raise.  The spec's taxonomy maps
`StructureError` to the `IndexError` of a `find(..)[0]` on an empty result,
`InvalidInputError` to the `ValueError` raised for a directory argument, and
`MissingResourceError` to the `IOError` raised for an absent local image. -/
inductive PyErr where
  | indexError
  | keyError
  | valueError
  | ioError
deriving DecidableEq, Repr

/-- An `ebooklib` `EpubImage`: `content = none` models a fresh `EpubImage()`
whose `content` attribute was never assigned. -/
structure EpubImage where
  file_name : String
  content : Option (List Nat)
deriving DecidableEq, Repr

/-- An `ebooklib` `EpubHtml` chapter. -/
structure Chapter where
  title : String
  file_name : String
  content : String
deriving DecidableEq, Repr

/-- The book under construction (`BookGenerator` plus its `EpubBook`). -/
structure Book where
  title : String
  language : String
  authors : List String
  metadata : List (String × String × String)
  chapters : List Chapter
  images : List EpubImage
deriving DecidableEq, Repr

/-- The filesystem under the HTML root: parsed HTML files, binary files and
directories.  HTML file contents are modelled post-parse. -/
structure FS where
  htmlFiles : List (String × HtmlEl)
  binFiles : List (String × List Nat)
  dirs : List String

/-- One run's fixed environment: the CLI root path, the scratch directory
name, the filesystem, the network (`none` = the fetch raises an `IOError`
subclass) and the scratch-cache contents left by earlier runs. -/
structure Cfg where
  html_root : String
  tmp_path : String
  fs : FS
  net : String → Option (List Nat)
  tmp0 : List (String × List Nat)

/-- The mutable state of a run: the book accumulator, the scratch-cache
contents, and the log of URLs fetched so far (instrumentation for the
at-most-one-fetch law). -/
structure RunState where
  book : Book
  tmpFiles : List (String × List Nat)
  fetched : List String
deriving DecidableEq, Repr

/-- The digest-derived cache filename:
`"{}.{}".format(hashlib.sha256(src.encode("utf-8")).hexdigest(), src.rsplit(".")[-1])`. -/
def digest_name (src : String) : String :=
  sha256hexStr src ++ "." ++ (pySplitC '.' src).getLastD ""

/-- The cache identity `os.path.join(self.tmp_path, digest_name)`. -/
def cache_path (cfg : Cfg) (src : String) : String := joinPath cfg.tmp_path (digest_name src)

/-- `MeaningnessEbook._inline_remote_image`: compute the digest-derived cache
path; if no cache file exists there, fetch the URL and persist the bytes;
return an `EpubImage` whose `file_name` is the cache path (its `content`
attribute is never assigned). -/
def inline_remote_image (cfg : Cfg) (st : RunState) (src : String) :
    Except PyErr (EpubImage × RunState) :=
  let fname := cache_path cfg src
  if (lookupA st.tmpFiles fname).isSome then
    .ok ({ file_name := fname, content := none }, st)
  else
    match cfg.net src with
    | none => .error .ioError
    | some bs =>
      .ok ({ file_name := fname, content := none },
           { st with tmpFiles := st.tmpFiles ++ [(fname, bs)], fetched := st.fetched ++ [src] })

/-- `MeaningnessEbook._inline_local_image`: resolve the path under the HTML
root; raise `IOError` if absent; otherwise read the bytes fully, delete any
`style` attribute of the `img` element, and return an `EpubImage` named by
the basename of the source path. -/
def inline_local_image (cfg : Cfg) (ps : List (String × String)) (src : String) :
    Except PyErr (EpubImage × List (String × String)) :=
  let image_path := joinPath cfg.html_root src
  match lookupA cfg.fs.binFiles image_path with
  | none => .error .ioError
  | some bs =>
    .ok ({ file_name := basename src, content := some bs },
         if (getParam ps "style").isSome then delParam ps "style" else ps)

/-- Whether a (already `../`-stripped) `src` is a remote reference. -/
def isRemote (src : String) : Bool := strStarts "http://" src || strStarts "https://" src

/-- Python `src.replace("../", "")`, applied only when `src.startswith("../")`. -/
def normalizeSrc (src : String) : String :=
  if strStarts "../" src then ⟨stripDotDotL src.data⟩ else src

/-- The body of the `for img in body.find("img")` loop of
`MeaningnessEbook._inline_images`, acting on one `img` element's attributes:
read `src` (a missing attribute raises `KeyError`), strip `../`, resolve
remotely or locally, catch `IOError` as skip-and-continue, and on success
register the image with the book and rewrite `src` to the image's
`file_name`. -/
def img_step (cfg : Cfg) (st : RunState) (ps : List (String × String)) :
    Except PyErr (List (String × String) × RunState) :=
  match getParam ps "src" with
  | none => .error .keyError
  | some src0 =>
    let src := normalizeSrc src0
    if isRemote src then
      match inline_remote_image cfg st src with
      | .error .ioError => .ok (ps, st)
      | .error e => .error e
      | .ok (img, st1) =>
        .ok (setParam ps "src" img.file_name,
             { st1 with book := { st1.book with images := st1.book.images ++ [img] } })
    else
      match inline_local_image cfg ps src with
      | .error .ioError => .ok (ps, st)
      | .error e => .error e
      | .ok (img, ps1) =>
        .ok (setParam ps1 "src" img.file_name,
             { st with book := { st.book with images := st.book.images ++ [img] } })

mutual
/-- `MeaningnessEbook._inline_images`, as a document-order traversal: each
`img` element is processed by `img_step` (the element before its
descendants, as `find` lists them). -/
def inlineT (cfg : Cfg) : HtmlEl → RunState → Except PyErr (HtmlEl × RunState)
  | .text s, st => .ok (.text s, st)
  | .tag n ps cs, st =>
    if n == "img" then
      match img_step cfg st ps with
      | .error e => .error e
      | .ok (ps1, st1) =>
        match inlineL cfg cs st1 with
        | .error e => .error e
        | .ok (cs1, st2) => .ok (.tag n ps1 cs1, st2)
    else
      match inlineL cfg cs st with
      | .error e => .error e
      | .ok (cs1, st1) => .ok (.tag n ps cs1, st1)
def inlineL (cfg : Cfg) : List HtmlEl → RunState → Except PyErr (List HtmlEl × RunState)
  | [], st => .ok ([], st)
  | c :: cs, st =>
    match inlineT cfg c st with
    | .error e => .error e
    | .ok (c1, st1) =>
      match inlineL cfg cs st1 with
      | .error e => .error e
      | .ok (cs1, st2) => .ok (c1 :: cs1, st2)
end

/-- `MeaningnessEbook._inline_images` on the chapter body. -/
def inline_images (cfg : Cfg) (st : RunState) (body : HtmlEl) :
    Except PyErr (HtmlEl × RunState) :=
  inlineT cfg body st

/-- `MeaningnessEbook.remove_fluff`: the eleven removal passes, then
`body.find("div", {"class": "node-content"})[0]` (an `IndexError` — the
spec's `StructureError` — if no such node remains). -/
def remove_fluff (b : HtmlEl) : Except PyErr (HtmlEl × HtmlEl) :=
  let b1 := remove_fluff_tree b
  match findAll (divAttr "class" "node-content") b1 with
  | [] => .error .indexError
  | nc :: _ => .ok (b1, nc)

/-- The title heuristic `title.split("(")[-1].split(")")[0].capitalize()`. -/
def extract_title (t : String) : String :=
  pyCapitalize ((pySplitC ')' ((pySplitC '(' t).getLastD "")).headD "")

/-- `MeaningnessEbook.convert_chapter`: reject directories (`ValueError`),
read and parse the article, derive the title when not supplied
(`find("title")[0]` raises `IndexError` when absent), locate the body
(`find("body")[0]` likewise), clean it, inline its images, and register the
resulting chapter with the book. -/
def convert_chapter (cfg : Cfg) (st : RunState) (article_path chapter_fn : String)
    (titleArg : Option String) : Except PyErr RunState :=
  let full_path := joinPath cfg.html_root article_path
  if full_path ∈ cfg.fs.dirs then .error .valueError
  else
    match lookupA cfg.fs.htmlFiles full_path with
    | none => .error .ioError
    | some dom =>
      let titleRes : Except PyErr String :=
        match titleArg with
        | some t => .ok t
        | none =>
          match findAll (tagNameIs "title") dom with
          | [] => .error .indexError
          | tEl :: _ => .ok (extract_title (getContent tEl))
      match titleRes with
      | .error e => .error e
      | .ok title =>
        match findAll (tagNameIs "body") dom with
        | [] => .error .indexError
        | bodyEl :: _ =>
          match remove_fluff bodyEl with
          | .error e => .error e
          | .ok (b1, _) =>
            match inline_images cfg st b1 with
            | .error e => .error e
            | .ok (b2, st1) =>
              .ok { st1 with book := { st1.book with chapters := st1.book.chapters ++
                    [{ title := title, file_name := chapter_fn, content := getContent b2 }] } }

/-- Selector for the TOC container `find("ul", {"class": "book-toc"})`. -/
def isTocUl (e : HtmlEl) : Bool :=
  match e with
  | .tag n ps _ => n == "ul" && getParam ps "class" == some "book-toc"
  | .text _ => false

/-- The `(a_el.params["href"], a_el.params["href"])` pairs yielded by
`parse_toc` for the anchors of the TOC container. -/
def mapHrefs : List HtmlEl → Except PyErr (List (String × String))
  | [] => .ok []
  | .tag _ ps _ :: rest =>
    match getParam ps "href" with
    | none => .error .keyError
    | some h =>
      match mapHrefs rest with
      | .error e => .error e
      | .ok l => .ok ((h, h) :: l)
  | .text _ :: _ => .error .keyError

/-- `MeaningnessEbook.parse_toc` on the parsed index page:
`find("ul", {"class": "book-toc"})[0]` (an `IndexError` — the spec's
`StructureError` — when absent), then one `(href, href)` pair per anchor in
document order. -/
def parse_toc (indexDom : HtmlEl) : Except PyErr (List (String × String)) :=
  match findAll isTocUl indexDom with
  | [] => .error .indexError
  | toc :: _ => mapHrefs (findAll (tagNameIs "a") toc)

/-- The book accumulator as `MeaningnessEbook.__init__` sets it up before any
chapter is converted. -/
def initState (cfg : Cfg) : RunState :=
  { book := { title := "Meaningness", language := "en", authors := ["David Chapman"],
              metadata := [("DC", "date", "2020-01-27"), ("DC", "generator", "")],
              chapters := [], images := [] },
    tmpFiles := cfg.tmp0, fetched := [] }

/-- The `for article_path, chapter_fn in self.chapters_metadata` loop of
`MeaningnessEbook.__init__`. -/
def convertAll (cfg : Cfg) : List (String × String) → RunState → Except PyErr RunState
  | [], st => .ok st
  | e :: es, st =>
    match convert_chapter cfg st e.1 e.2 none with
    | .error err => .error err
    | .ok st1 => convertAll cfg es st1

/-- `MeaningnessEbook.__init__`: read and parse `index.html`, parse the TOC,
and convert every listed article in order. -/
def runInit (cfg : Cfg) : Except PyErr RunState :=
  match lookupA cfg.fs.htmlFiles (joinPath cfg.html_root "index.html") with
  | none => .error .ioError
  | some indexDom =>
    match parse_toc indexDom with
    | .error e => .error e
    | .ok entries => convertAll cfg entries (initState cfg)

/-- An entry of the EPUB spine (reading order). -/
inductive SpineEntry where
  | nav
  | doc (c : Chapter)
deriving DecidableEq, Repr

/-- `BookGenerator._add_toc`: `self.book.spine = ['nav'] + self.chapters`. -/
def add_toc_spine (b : Book) : List SpineEntry :=
  SpineEntry.nav :: b.chapters.map SpineEntry.doc

/-- Modelled from the spec: the claimed title rule "take the content after
the last `(` and before the last `)` and capitalize it; if the title contains
no parentheses the whole title is used".  The fragment before the last `)`
is the concatenation of all `)`-separated parts except the final one,
rejoined on `)`; absent any `)`, the whole fragment degrades to itself. -/
def spec_title_rule (t : String) : String :=
  let afterOpen := (splitOnCharL '(' t.data).getLastD []
  let parts := splitOnCharL ')' afterOpen
  let beforeClose := if parts.length == 1 then afterOpen else List.intercalate [')'] parts.dropLast
  pyCapitalize ⟨beforeClose⟩

/-! ### Predicates used by the verification -/

/-- Shell equality: two nodes with the same constructor, tag name and
attributes (children unconstrained). -/
def shellEq : HtmlEl → HtmlEl → Prop
  | .text s, .text s' => s = s'
  | .tag n ps _, .tag n' ps' _ => n = n' ∧ ps = ps'
  | .text _, .tag _ _ _ => False
  | .tag _ _ _, .text _ => False

/-- A well-behaved removal selector: it only inspects tag name and
attributes, never matches a text node, and never matches the blank node. -/
def selOk (p : HtmlEl → Bool) : Prop :=
  (∀ n ps cs cs', p (.tag n ps cs) = p (.tag n ps cs')) ∧
  (∀ s, p (.text s) = false) ∧ p emptyEl = false

/-- An `img` element whose resolution is bound to raise an `IOError`
(a missing local file, or a remote fetch that fails against a cold cache);
non-`img` nodes satisfy the predicate vacuously. -/
def imgSkips (cfg : Cfg) (st : RunState) : HtmlEl → Prop
  | .text _ => True
  | .tag n ps _ =>
    n = "img" → ∃ src0, getParam ps "src" = some src0 ∧
      ((isRemote (normalizeSrc src0) = true ∧
        lookupA st.tmpFiles (cache_path cfg (normalizeSrc src0)) = none ∧
        cfg.net (normalizeSrc src0) = none) ∨
       (isRemote (normalizeSrc src0) = false ∧
        lookupA cfg.fs.binFiles (joinPath cfg.html_root (normalizeSrc src0)) = none))

/-- An `img` element carrying a `src` attribute (the only requirement for
the inlining loop body not to raise `KeyError`); non-`img` nodes satisfy the
predicate vacuously. -/
def imgHasSrc : HtmlEl → Prop
  | .text _ => True
  | .tag n ps _ => n = "img" → (getParam ps "src").isSome = true

/-- An `img` element referencing a local image whose file is absent;
non-`img` nodes satisfy the predicate vacuously. -/
def localMissingImg (cfg : Cfg) : HtmlEl → Prop
  | .text _ => True
  | .tag n ps _ =>
    n = "img" → ∃ src0, getParam ps "src" = some src0 ∧
      isRemote (normalizeSrc src0) = false ∧
      lookupA cfg.fs.binFiles (joinPath cfg.html_root (normalizeSrc src0)) = none

/-- The fetch/cache invariant of a run: no two logged fetches share a cache
identity, and every logged fetch left a file at its cache identity. -/
def fetchInv (cfg : Cfg) (st : RunState) : Prop :=
  (st.fetched.map (cache_path cfg)).Nodup ∧
  ∀ u ∈ st.fetched, (lookupA st.tmpFiles (cache_path cfg u)).isSome = true

/-- The state evolution contract of the image-inlining phase: chapters are
untouched, cache files persist, and the fetch/cache invariant is preserved. -/
def stepRel (cfg : Cfg) (st st' : RunState) : Prop :=
  st'.book.chapters = st.book.chapters ∧
  (∀ k, (lookupA st.tmpFiles k).isSome = true → (lookupA st'.tmpFiles k).isSome = true) ∧
  (fetchInv cfg st → fetchInv cfg st')

/-! ### Concrete inputs used by the witnesses -/

/-- A minimal article document: a `title` element and a `body`. -/
def articleDom (t : String) (body : List HtmlEl) : HtmlEl :=
  .tag "html" [] [.tag "title" [] [.text t], .tag "body" [] body]

/-- The primary-content container every article must retain. -/
def ncDiv (inner : List HtmlEl) : HtmlEl := .tag "div" [("class", "node-content")] inner

/-- A minimal index page whose TOC lists the given hrefs. -/
def tocIndexDom (hrefs : List String) : HtmlEl :=
  .tag "html" [] [.tag "body" [] [.tag "ul" [("class", "book-toc")]
    (hrefs.map (fun h => .tag "li" [] [.tag "a" [("href", h)] [.text h]]))]]

/-- Two articles, no images. -/
def cfg1 : Cfg :=
  { html_root := "site", tmp_path := "tmp_images",
    fs := { htmlFiles :=
              [("site/index.html", tocIndexDom ["a.html", "b.html"]),
               ("site/a.html", articleDom "Meaningness (Alpha)" [ncDiv [.text "hello"]]),
               ("site/b.html", articleDom "Meaningness (Beta)" [ncDiv [.text "world"]])],
            binFiles := [], dirs := [] },
    net := fun _ => none, tmp0 := [] }

/-- One article referencing the same remote image twice; the network serves
bytes `[1, 2, 3]` for every URL. -/
def cfg2 : Cfg :=
  { html_root := "site", tmp_path := "tmp_images",
    fs := { htmlFiles :=
              [("site/index.html", tocIndexDom ["a.html"]),
               ("site/a.html", articleDom "Meaningness (Alpha)"
                 [ncDiv [.tag "img" [("src", "http://x.test/i.png")] [],
                         .tag "img" [("src", "http://x.test/i.png")] []]])],
            binFiles := [], dirs := [] },
    net := fun _ => some [1, 2, 3], tmp0 := [] }

/-- The cache identity of `http://x.test/i.png` under `tmp_images`
(its concrete value is evaluated in `cachePath2_eval` below). -/
def cachePath2 : String := cache_path cfg2 "http://x.test/i.png"

/-- The final state of the run over `cfg2`. -/
def st2 : RunState :=
  { book := { title := "Meaningness", language := "en", authors := ["David Chapman"],
              metadata := [("DC", "date", "2020-01-27"), ("DC", "generator", "")],
              chapters := [{ title := "Alpha", file_name := "a.html",
                             content := "<div class=\"node-content\"><img src=\"" ++ cachePath2 ++
                               "\"></img><img src=\"" ++ cachePath2 ++ "\"></img></div>" }],
              images := [{ file_name := cachePath2, content := none },
                         { file_name := cachePath2, content := none }] },
    tmpFiles := [(cachePath2, [1, 2, 3])],
    fetched := ["http://x.test/i.png"] }

/-- One article with a single remote image; the network serves `[7, 7]`. -/
def cfg3 : Cfg :=
  { html_root := "site", tmp_path := "tmp_images",
    fs := { htmlFiles :=
              [("site/index.html", tocIndexDom ["a.html"]),
               ("site/a.html", articleDom "Meaningness (Alpha)"
                 [ncDiv [.tag "img" [("src", "http://x.test/pic.png")] []]])],
            binFiles := [], dirs := [] },
    net := fun _ => some [7, 7], tmp0 := [] }

/-- The cache identity of `http://x.test/pic.png` under `tmp_images`
(its concrete value is evaluated in `cachePath3_eval` below). -/
def cachePath3 : String := cache_path cfg3 "http://x.test/pic.png"

/-- The final state of the run over `cfg3`. -/
def st3 : RunState :=
  { book := { title := "Meaningness", language := "en", authors := ["David Chapman"],
              metadata := [("DC", "date", "2020-01-27"), ("DC", "generator", "")],
              chapters := [{ title := "Alpha", file_name := "a.html",
                             content := "<div class=\"node-content\"><img src=\"" ++ cachePath3 ++
                               "\"></img></div>" }],
              images := [{ file_name := cachePath3, content := none }] },
    tmpFiles := [(cachePath3, [7, 7])],
    fetched := ["http://x.test/pic.png"] }

/-- One article with a single local image whose file does not exist. -/
def cfg5 : Cfg :=
  { html_root := "site", tmp_path := "tmp_images",
    fs := { htmlFiles :=
              [("site/index.html", tocIndexDom ["a.html"]),
               ("site/a.html", articleDom "Meaningness (Alpha)"
                 [ncDiv [.tag "img" [("src", "pics/x.png")] []]])],
            binFiles := [], dirs := [] },
    net := fun _ => none, tmp0 := [] }

/-- The (already cleaned) body of `cfg5`'s article. -/
def body5 : HtmlEl := .tag "body" [] [ncDiv [.tag "img" [("src", "pics/x.png")] []]]

/-- A filesystem where the article path is a directory. -/
def cfg6 : Cfg :=
  { html_root := "site", tmp_path := "tmp_images",
    fs := { htmlFiles := [], binFiles := [], dirs := ["site/adir"] },
    net := fun _ => none, tmp0 := [] }

/-- An index page with no `ul.book-toc` container. -/
def cfg7a : Cfg :=
  { html_root := "site", tmp_path := "tmp_images",
    fs := { htmlFiles := [("site/index.html", .tag "html" [] [.tag "body" [] [.text "empty"]])],
            binFiles := [], dirs := [] },
    net := fun _ => none, tmp0 := [] }

/-- An article with no `title` element. -/
def cfg7b : Cfg :=
  { html_root := "site", tmp_path := "tmp_images",
    fs := { htmlFiles :=
              [("site/index.html", tocIndexDom ["a.html"]),
               ("site/a.html", .tag "html" [] [.tag "body" [] [ncDiv [.text "hello"]]])],
            binFiles := [], dirs := [] },
    net := fun _ => none, tmp0 := [] }

/-- An article with a `title` element but no `body` element. -/
def cfg7c : Cfg :=
  { html_root := "site", tmp_path := "tmp_images",
    fs := { htmlFiles :=
              [("site/index.html", tocIndexDom ["a.html"]),
               ("site/a.html", .tag "html" [] [.tag "title" [] [.text "Meaningness (Alpha)"]])],
            binFiles := [], dirs := [] },
    net := fun _ => none, tmp0 := [] }

/-- An article whose page title has an unbalanced `)` after the
parenthesized segment. -/
def cfg8 : Cfg :=
  { html_root := "site", tmp_path := "tmp_images",
    fs := { htmlFiles :=
              [("site/index.html", tocIndexDom ["a.html"]),
               ("site/a.html", articleDom "t (a) b) c" [ncDiv [.text "hello"]])],
            binFiles := [], dirs := [] },
    net := fun _ => none, tmp0 := [] }

/-- An article whose page title has no parentheses at all. -/
def cfg8b : Cfg :=
  { html_root := "site", tmp_path := "tmp_images",
    fs := { htmlFiles :=
              [("site/index.html", tocIndexDom ["a.html"]),
               ("site/a.html", articleDom "plain title" [ncDiv [.text "hello"]])],
            binFiles := [], dirs := [] },
    net := fun _ => none, tmp0 := [] }

/-- One article with one remote image (network down) and one missing local
image. -/
def cfg10 : Cfg :=
  { html_root := "site", tmp_path := "tmp_images",
    fs := { htmlFiles :=
              [("site/index.html", tocIndexDom ["a.html"]),
               ("site/a.html", articleDom "Meaningness (Alpha)"
                 [ncDiv [.tag "img" [("src", "http://x.test/i.png")] [],
                         .tag "img" [("src", "pics/x.png")] []]])],
            binFiles := [], dirs := [] },
    net := fun _ => none, tmp0 := [] }

/-- The (already cleaned) body of `cfg10`'s article. -/
def body10 : HtmlEl :=
  .tag "body" [] [ncDiv [.tag "img" [("src", "http://x.test/i.png")] [],
                         .tag "img" [("src", "pics/x.png")] []]]

/-- The final state of the run over `cfg1`. -/
def st1fin : RunState :=
  { book := { title := "Meaningness", language := "en", authors := ["David Chapman"],
              metadata := [("DC", "date", "2020-01-27"), ("DC", "generator", "")],
              chapters := [{ title := "Alpha", file_name := "a.html",
                             content := "<div class=\"node-content\">hello</div>" },
                           { title := "Beta", file_name := "b.html",
                             content := "<div class=\"node-content\">world</div>" }],
              images := [] },
    tmpFiles := [], fetched := [] }

/-- The run state of `cfg2` right after the first remote resolution. -/
def st2mid : RunState :=
  { book := { title := "Meaningness", language := "en", authors := ["David Chapman"],
              metadata := [("DC", "date", "2020-01-27"), ("DC", "generator", "")],
              chapters := [], images := [] },
    tmpFiles := [(cachePath2, [1, 2, 3])],
    fetched := ["http://x.test/i.png"] }

/-- The final state of the run over `cfg8`. -/
def st8fin : RunState :=
  { book := { title := "Meaningness", language := "en", authors := ["David Chapman"],
              metadata := [("DC", "date", "2020-01-27"), ("DC", "generator", "")],
              chapters := [{ title := "A", file_name := "a.html",
                             content := "<div class=\"node-content\">hello</div>" }],
              images := [] },
    tmpFiles := [], fetched := [] }

/-! ### Validation of the hash embedding -/

/-- FIPS 180-4 test vector, matching `hashlib.sha256(b"abc").hexdigest()`. -/
theorem sha256_test_vector_abc :
    sha256hexStr "abc" = "ba7816bf8f01cfea414140de5dae2223b00361a396177a9cb410ff61f20015ad" := by
  decide

/-- FIPS 180-4 test vector for the empty message. -/
theorem sha256_test_vector_empty :
    sha256hexStr "" = "e3b0c44298fc1c149afbf4c8996fb92427ae41e4649b934ca495991b7852b855" := by
  decide

/-! ### Content Cleaner lemmas -/

/-- A selector that only inspects name and attributes takes equal values on
shell-equal nodes. -/
theorem shellEq_eval (p : HtmlEl → Bool)
    (hinv : ∀ n ps cs cs', p (.tag n ps cs) = p (.tag n ps cs'))
    {m n' : HtmlEl} (h : shellEq m n') : p m = p n' := by
  cases m with
  | text s =>
    cases n' with
    | text s' => simp only [shellEq] at h; rw [h]
    | tag a b c => simp only [shellEq] at h
  | tag a b c =>
    cases n' with
    | text s' => simp only [shellEq] at h
    | tag a' b' c' =>
      obtain ⟨h1, h2⟩ := h
      subst h1; subst h2
      exact hinv a b c c'

/-- Every node of a cleaned forest is the blank node, a text node, or the
shell of an original node the selector rejected (list version). -/
theorem cleanPassL_nodes (p : HtmlEl → Bool) (cs : List HtmlEl)
    (ih : ∀ c ∈ cs, ∀ m ∈ nodesOfT (cleanPassT p c),
      m = emptyEl ∨ (∃ s, m = .text s) ∨ ∃ n', n' ∈ nodesOfT c ∧ shellEq m n' ∧ p n' = false) :
    ∀ m ∈ nodesOfL (cleanPassL p cs),
      m = emptyEl ∨ (∃ s, m = .text s) ∨ ∃ n', n' ∈ nodesOfL cs ∧ shellEq m n' ∧ p n' = false := by
  induction cs with
  | nil => intro m hm; simp [cleanPassL, nodesOfL] at hm
  | cons c cs ihl =>
    intro m hm
    simp only [cleanPassL, nodesOfL, List.mem_append] at hm
    rcases hm with hm | hm
    · rcases ih c (by simp) m hm with h | h | ⟨n', hn', hs, hp⟩
      · exact Or.inl h
      · exact Or.inr (Or.inl h)
      · refine Or.inr (Or.inr ⟨n', ?_, hs, hp⟩)
        simp only [nodesOfL, List.mem_append]
        exact Or.inl hn'
    · rcases ihl (fun c' hc' => ih c' (by simp [hc'])) m hm with h | h | ⟨n', hn', hs, hp⟩
      · exact Or.inl h
      · exact Or.inr (Or.inl h)
      · refine Or.inr (Or.inr ⟨n', ?_, hs, hp⟩)
        simp only [nodesOfL, List.mem_append]
        exact Or.inr hn'

/-- Every node of a cleaned tree is the blank node, a text node, or the
shell of an original node the selector rejected. -/
theorem cleanPassT_nodes (p : HtmlEl → Bool) (t : HtmlEl) :
    ∀ m ∈ nodesOfT (cleanPassT p t),
      m = emptyEl ∨ (∃ s, m = .text s) ∨ ∃ n', n' ∈ nodesOfT t ∧ shellEq m n' ∧ p n' = false := by
  induction t using HtmlEl.indOn with
  | ht s =>
    intro m hm
    simp only [cleanPassT, nodesOfT, List.mem_singleton] at hm
    exact Or.inr (Or.inl ⟨s, hm⟩)
  | hg n ps cs ih =>
    intro m hm
    cases hp : p (.tag n ps cs) with
    | true =>
      simp only [cleanPassT, hp, if_true, emptyEl, nodesOfT, nodesOfL,
        List.mem_singleton] at hm
      exact Or.inl (by simpa [emptyEl] using hm)
    | false =>
      simp only [cleanPassT, hp, Bool.false_eq_true, if_false, nodesOfT,
        List.mem_cons] at hm
      rcases hm with rfl | hm
      · refine Or.inr (Or.inr ⟨.tag n ps cs, ?_, ⟨rfl, rfl⟩, hp⟩)
        simp [nodesOfT]
      · rcases cleanPassL_nodes p cs ih m hm with h | h | ⟨n', hn', hs, hp'⟩
        · exact Or.inl h
        · exact Or.inr (Or.inl h)
        · refine Or.inr (Or.inr ⟨n', ?_, hs, hp'⟩)
          simp only [nodesOfT, List.mem_cons]
          exact Or.inr hn'

/-- After a removal pass, no node matches the pass's selector. -/
theorem nomatch_after_cleanPassT (p : HtmlEl → Bool) (hsel : selOk p) (t : HtmlEl) :
    ∀ m ∈ nodesOfT (cleanPassT p t), p m = false := by
  intro m hm
  rcases cleanPassT_nodes p t m hm with h | ⟨s, h⟩ | ⟨n', _, hs, hp⟩
  · rw [h]; exact hsel.2.2
  · rw [h]; exact hsel.2.1 s
  · rw [shellEq_eval p hsel.1 hs]; exact hp

/-- A removal pass cannot introduce matches of another well-behaved selector. -/
theorem nomatch_preserved_cleanPassT (q : HtmlEl → Bool) (hq : selOk q) (p : HtmlEl → Bool)
    (t : HtmlEl) (h : ∀ m ∈ nodesOfT t, q m = false) :
    ∀ m ∈ nodesOfT (cleanPassT p t), q m = false := by
  intro m hm
  rcases cleanPassT_nodes p t m hm with h1 | ⟨s, h1⟩ | ⟨n', hn', hs, _⟩
  · rw [h1]; exact hq.2.2
  · rw [h1]; exact hq.2.1 s
  · rw [shellEq_eval q hq.1 hs]; exact h n' hn'

/-- A removal pass whose selector matches nothing is the identity (list
version). -/
theorem cleanPassL_id (p : HtmlEl → Bool) (cs : List HtmlEl)
    (ih : ∀ c ∈ cs, (∀ m ∈ nodesOfT c, p m = false) → cleanPassT p c = c)
    (h : ∀ m ∈ nodesOfL cs, p m = false) : cleanPassL p cs = cs := by
  induction cs with
  | nil => simp [cleanPassL]
  | cons c cs ihl =>
    simp only [cleanPassL]
    rw [ih c (by simp) (fun m hm => h m (by simp only [nodesOfL, List.mem_append]; exact Or.inl hm)),
        ihl (fun c' hc' => ih c' (by simp [hc']))
          (fun m hm => h m (by simp only [nodesOfL, List.mem_append]; exact Or.inr hm))]

/-- A removal pass whose selector matches nothing is the identity. -/
theorem cleanPassT_id (p : HtmlEl → Bool) (t : HtmlEl)
    (h : ∀ m ∈ nodesOfT t, p m = false) : cleanPassT p t = t := by
  induction t using HtmlEl.indOn with
  | ht s => simp [cleanPassT]
  | hg n ps cs ih =>
    have hp : p (.tag n ps cs) = false := h _ (by simp [nodesOfT])
    simp only [cleanPassT, hp, Bool.false_eq_true, if_false]
    rw [cleanPassL_id p cs ih
      (fun m hm => h m (by simp only [nodesOfT, List.mem_cons]; exact Or.inr hm))]

/-- No-match of a well-behaved selector survives any sequence of removal
passes. -/
theorem applySels_pres (q : HtmlEl → Bool) (hq : selOk q) (L : List (HtmlEl → Bool)) :
    ∀ t, (∀ m ∈ nodesOfT t, q m = false) → ∀ m ∈ nodesOfT (applySels L t), q m = false := by
  induction L with
  | nil => intro t h; exact h
  | cons p L ihl =>
    intro t h
    exact ihl _ (nomatch_preserved_cleanPassT q hq p t h)

/-- After running all passes, no selector of the list matches anywhere. -/
theorem applySels_all_nomatch (L : List (HtmlEl → Bool)) (hL : ∀ p ∈ L, selOk p) :
    ∀ t, ∀ p ∈ L, ∀ m ∈ nodesOfT (applySels L t), p m = false := by
  induction L with
  | nil => intro t p hp; simp at hp
  | cons q L ihl =>
    intro t p hp
    rcases List.mem_cons.mp hp with rfl | hp'
    · exact applySels_pres p (hL p hp) L _ (nomatch_after_cleanPassT p (hL p hp) t)
    · exact ihl (fun r hr => hL r (List.mem_cons_of_mem _ hr)) (cleanPassT q t) p hp'

/-- A sequence of passes none of whose selectors matches is the identity. -/
theorem applySels_id (L : List (HtmlEl → Bool)) (t : HtmlEl)
    (h : ∀ p ∈ L, ∀ m ∈ nodesOfT t, p m = false) : applySels L t = t := by
  induction L with
  | nil => rfl
  | cons q L ihl =>
    have hq : cleanPassT q t = t := cleanPassT_id q t (h q (by simp))
    show applySels L (cleanPassT q t) = t
    rw [hq]
    exact ihl (fun p hp => h p (by simp [hp]))

/-- Each of the eleven `remove_fluff` selectors is well-behaved. -/
theorem sels_ok : ∀ p ∈ sels, selOk p := by
  intro p hp
  simp only [sels, List.mem_cons, List.not_mem_nil, or_false] at hp
  rcases hp with rfl | rfl | rfl | rfl | rfl | rfl | rfl | rfl | rfl | rfl | rfl
  all_goals exact ⟨fun n ps cs cs' => rfl, fun s => rfl, rfl⟩

/-- C9: Content Cleaner removal is idempotent: for every body element tree,
applying the cleaning step twice yields the same tree as applying it once
(re-running on already-cleaned content is a no-op). -/
theorem meaningness_c9 (body : HtmlEl) :
    remove_fluff_tree (remove_fluff_tree body) = remove_fluff_tree body := by
  unfold remove_fluff_tree
  exact applySels_id sels _ (applySels_all_nomatch sels sels_ok body)

/-! ### Image Resolver lemmas -/

/-- An `img` whose resolution raises an `IOError` (either branch) is skipped:
the loop body returns the attributes and the state unchanged. -/
theorem img_step_skip (cfg : Cfg) (st : RunState) (ps : List (String × String)) (src0 : String)
    (hsrc : getParam ps "src" = some src0)
    (h : (isRemote (normalizeSrc src0) = true ∧
          lookupA st.tmpFiles (cache_path cfg (normalizeSrc src0)) = none ∧
          cfg.net (normalizeSrc src0) = none) ∨
         (isRemote (normalizeSrc src0) = false ∧
          lookupA cfg.fs.binFiles (joinPath cfg.html_root (normalizeSrc src0)) = none)) :
    img_step cfg st ps = .ok (ps, st) := by
  rcases h with ⟨hr, hc, hn⟩ | ⟨hr, hf⟩
  · simp only [img_step, hsrc, hr, if_true, inline_remote_image, hc, Option.isSome_none,
      Bool.false_eq_true, if_false, hn]
  · simp only [img_step, hsrc, hr, Bool.false_eq_true, if_false, inline_local_image, hf]

/-- If every `img` in a forest is bound to be skipped, the inlining loop
leaves forest and state unchanged (list version). -/
theorem inlineL_skip (cfg : Cfg) (st : RunState) (cs : List HtmlEl)
    (ih : ∀ c ∈ cs, (∀ e ∈ nodesOfT c, imgSkips cfg st e) → inlineT cfg c st = .ok (c, st))
    (h : ∀ e ∈ nodesOfL cs, imgSkips cfg st e) :
    inlineL cfg cs st = .ok (cs, st) := by
  induction cs with
  | nil => simp [inlineL]
  | cons c cs ihl =>
    have h1 : inlineT cfg c st = .ok (c, st) :=
      ih c (by simp) (fun e he => h e (by simp only [nodesOfL, List.mem_append]; exact Or.inl he))
    have h2 : inlineL cfg cs st = .ok (cs, st) :=
      ihl (fun c' hc' => ih c' (by simp [hc']))
        (fun e he => h e (by simp only [nodesOfL, List.mem_append]; exact Or.inr he))
    simp [inlineL, h1, h2]

/-- If every `img` in a tree is bound to be skipped, the inlining phase
leaves tree and state unchanged. -/
theorem inlineT_skip (cfg : Cfg) (st : RunState) (t : HtmlEl) :
    (∀ e ∈ nodesOfT t, imgSkips cfg st e) → inlineT cfg t st = .ok (t, st) := by
  induction t using HtmlEl.indOn with
  | ht s => intro _; simp [inlineT]
  | hg n ps cs ih =>
    intro h
    have hcs : inlineL cfg cs st = .ok (cs, st) :=
      inlineL_skip cfg st cs ih
        (fun e he => h e (by simp only [nodesOfT, List.mem_cons]; exact Or.inr he))
    by_cases hn : n = "img"
    · subst hn
      have hself := h (.tag "img" ps cs) (by simp [nodesOfT])
      simp only [imgSkips] at hself
      obtain ⟨src0, hsrc, hd⟩ := hself trivial
      have hstep : img_step cfg st ps = .ok (ps, st) := img_step_skip cfg st ps src0 hsrc hd
      simp [inlineT, hstep, hcs]
    · simp [inlineT, hn, hcs]

/-- A missing local image makes its `img` element a skipped one (for any run
state). -/
theorem localMissing_imgSkips (cfg : Cfg) (st : RunState) (e : HtmlEl)
    (h : localMissingImg cfg e) : imgSkips cfg st e := by
  cases e with
  | text s => simp [imgSkips]
  | tag n ps cs =>
    simp only [localMissingImg] at h
    simp only [imgSkips]
    intro hn
    obtain ⟨src0, h1, h2, h3⟩ := h hn
    exact ⟨src0, h1, Or.inr ⟨h2, h3⟩⟩

/-- The success path of `convert_chapter` with a derived title: the produced
chapter carries the derived title, the requested file name and the inlined
body content, and is appended to the book. -/
theorem convert_chapter_eq (cfg : Cfg) (st : RunState) (p fn : String)
    (dom tEl bEl b1 nc b2 : HtmlEl) (tR bR : List HtmlEl) (st1 : RunState)
    (hdir : joinPath cfg.html_root p ∉ cfg.fs.dirs)
    (hf : lookupA cfg.fs.htmlFiles (joinPath cfg.html_root p) = some dom)
    (ht : findAll (tagNameIs "title") dom = tEl :: tR)
    (hb : findAll (tagNameIs "body") dom = bEl :: bR)
    (hcl : remove_fluff bEl = .ok (b1, nc))
    (hi : inline_images cfg st b1 = .ok (b2, st1)) :
    convert_chapter cfg st p fn none = .ok { st1 with book := { st1.book with chapters :=
      st1.book.chapters ++ [{ title := extract_title (getContent tEl), file_name := fn,
                              content := getContent b2 }] } } := by
  simp only [convert_chapter, if_neg hdir, hf, ht, hb, hcl, hi]

/-- Failing remote resolutions return the `IOError` the loop catches. -/
theorem inline_remote_err (cfg : Cfg) (st : RunState) (src : String) (e : PyErr)
    (h : inline_remote_image cfg st src = .error e) : e = .ioError := by
  simp only [inline_remote_image] at h
  split at h
  · simp at h
  · split at h
    · simp only [Except.error.injEq] at h
      exact h.symm
    · simp at h

/-- Failing local resolutions return the `IOError` the loop catches. -/
theorem inline_local_err (cfg : Cfg) (ps : List (String × String)) (src : String) (e : PyErr)
    (h : inline_local_image cfg ps src = .error e) : e = .ioError := by
  simp only [inline_local_image] at h
  split at h
  · simp only [Except.error.injEq] at h
    exact h.symm
  · simp at h

/-- The loop body never raises as long as the `img` element has a `src`
attribute: every resolution failure is an `IOError`, and those are caught. -/
theorem img_step_total (cfg : Cfg) (st : RunState) (ps : List (String × String)) (src0 : String)
    (hsrc : getParam ps "src" = some src0) : ∃ r, img_step cfg st ps = .ok r := by
  simp only [img_step, hsrc]
  split
  · cases hrem : inline_remote_image cfg st (normalizeSrc src0) with
    | error e =>
      have he := inline_remote_err cfg st _ e hrem
      subst he
      exact ⟨(ps, st), rfl⟩
    | ok v =>
      obtain ⟨img, st1⟩ := v
      exact ⟨_, rfl⟩
  · cases hloc : inline_local_image cfg ps (normalizeSrc src0) with
    | error e =>
      have he := inline_local_err cfg ps _ e hloc
      subst he
      exact ⟨(ps, st), rfl⟩
    | ok v =>
      obtain ⟨img, ps1⟩ := v
      exact ⟨_, rfl⟩

/-- If every `img` of a forest has a `src` attribute, the inlining loop
cannot abort (list version). -/
theorem inlineL_total (cfg : Cfg) (cs : List HtmlEl)
    (ih : ∀ c ∈ cs, ∀ st, (∀ e ∈ nodesOfT c, imgHasSrc e) → ∃ r, inlineT cfg c st = .ok r) :
    ∀ st, (∀ e ∈ nodesOfL cs, imgHasSrc e) → ∃ r, inlineL cfg cs st = .ok r := by
  induction cs with
  | nil => intro st _; exact ⟨([], st), rfl⟩
  | cons c cs ihl =>
    intro st h
    obtain ⟨⟨c1, st1⟩, h1⟩ := ih c (by simp) st
      (fun e he => h e (by simp only [nodesOfL, List.mem_append]; exact Or.inl he))
    obtain ⟨⟨cs1, st2⟩, h2⟩ := ihl (fun c' hc' => ih c' (by simp [hc'])) st1
      (fun e he => h e (by simp only [nodesOfL, List.mem_append]; exact Or.inr he))
    exact ⟨(c1 :: cs1, st2), by simp [inlineL, h1, h2]⟩

/-- If every `img` of a tree has a `src` attribute, the inlining phase
cannot abort, whatever mixture of resolutions succeeds or fails. -/
theorem inlineT_total (cfg : Cfg) (t : HtmlEl) :
    ∀ st, (∀ e ∈ nodesOfT t, imgHasSrc e) → ∃ r, inlineT cfg t st = .ok r := by
  induction t using HtmlEl.indOn with
  | ht s => intro st _; exact ⟨(.text s, st), rfl⟩
  | hg n ps cs ih =>
    intro st h
    have hcs : ∀ e ∈ nodesOfL cs, imgHasSrc e :=
      fun e he => h e (by simp only [nodesOfT, List.mem_cons]; exact Or.inr he)
    by_cases hn : n = "img"
    · subst hn
      have hself := h (.tag "img" ps cs) (by simp [nodesOfT])
      simp only [imgHasSrc] at hself
      obtain ⟨src0, hsrc0⟩ := Option.isSome_iff_exists.mp (hself trivial)
      obtain ⟨⟨ps1, st1⟩, hstep⟩ := img_step_total cfg st ps src0 hsrc0
      obtain ⟨⟨cs1, st2⟩, hl⟩ := inlineL_total cfg cs ih st1 hcs
      exact ⟨(.tag "img" ps1 cs1, st2), by simp [inlineT, hstep, hl]⟩
    · obtain ⟨⟨cs1, st1⟩, hl⟩ := inlineL_total cfg cs ih st hcs
      exact ⟨(.tag n ps cs1, st1), by simp [inlineT, hn, hl]⟩

/-- C5: for every chapter containing a local image reference whose file is
absent, chapter conversion does not abort.  First: the offending `img` is
processed in place — the loop body returns its attributes (so `src`) and the
run state (so the book's images) unchanged and moves on.  Second: whatever
mixture of images a chapter holds, inlining never aborts as long as each
`img` has a `src` attribute, so the chapter is still produced.  Third, end
to end: a chapter all of whose images are absent local references converts
to a registered chapter whose body — `src` attributes included — is
untouched, with no `Image` registered. -/
theorem meaningness_c5 (cfg : Cfg) (st : RunState) :
    (∀ ps src0, getParam ps "src" = some src0 →
       isRemote (normalizeSrc src0) = false →
       lookupA cfg.fs.binFiles (joinPath cfg.html_root (normalizeSrc src0)) = none →
       img_step cfg st ps = .ok (ps, st)) ∧
    (∀ b1, (∀ e ∈ nodesOfT b1, imgHasSrc e) → ∃ r, inline_images cfg st b1 = .ok r) ∧
    (∀ article_path chapter_fn (dom tEl bEl b1 nc : HtmlEl) (tR bR : List HtmlEl),
       joinPath cfg.html_root article_path ∉ cfg.fs.dirs →
       lookupA cfg.fs.htmlFiles (joinPath cfg.html_root article_path) = some dom →
       findAll (tagNameIs "title") dom = tEl :: tR →
       findAll (tagNameIs "body") dom = bEl :: bR →
       remove_fluff bEl = .ok (b1, nc) →
       (∀ e ∈ nodesOfT b1, localMissingImg cfg e) →
       inline_images cfg st b1 = .ok (b1, st) ∧
       convert_chapter cfg st article_path chapter_fn none = .ok
         { st with book := { st.book with chapters := st.book.chapters ++
             [{ title := extract_title (getContent tEl), file_name := chapter_fn,
                content := getContent b1 }] } }) := by
  refine ⟨?_, ?_, ?_⟩
  · intro ps src0 hsrc hr hf
    exact img_step_skip cfg st ps src0 hsrc (Or.inr ⟨hr, hf⟩)
  · intro b1 h
    exact inlineT_total cfg b1 st h
  · intro article_path chapter_fn dom tEl bEl b1 nc tR bR hdir hf ht hb hcl hmiss
    have hin : inline_images cfg st b1 = .ok (b1, st) :=
      inlineT_skip cfg st b1 (fun e he => localMissing_imgSkips cfg st e (hmiss e he))
    exact ⟨hin, convert_chapter_eq cfg st article_path chapter_fn dom tEl bEl b1 nc b1 tR bR st
      hdir hf ht hb hcl hin⟩

/-- C10: the image-inlining loop catches every `IOError` raised by either
resolution branch, so a failed remote fetch (whose exception types subclass
`IOError`) is also treated as skip-and-continue — that image's `src` is left
unchanged, no `Image` is registered, and the chapter conversion proceeds —
not only the missing-local-file case. -/
theorem meaningness_c10 (cfg : Cfg) (st : RunState) :
    (∀ ps src0, getParam ps "src" = some src0 →
       isRemote (normalizeSrc src0) = true →
       lookupA st.tmpFiles (cache_path cfg (normalizeSrc src0)) = none →
       cfg.net (normalizeSrc src0) = none →
       img_step cfg st ps = .ok (ps, st)) ∧
    (∀ b1, (∀ e ∈ nodesOfT b1, imgSkips cfg st e) →
       inline_images cfg st b1 = .ok (b1, st)) ∧
    (∀ article_path chapter_fn (dom tEl bEl b1 nc : HtmlEl) (tR bR : List HtmlEl),
       joinPath cfg.html_root article_path ∉ cfg.fs.dirs →
       lookupA cfg.fs.htmlFiles (joinPath cfg.html_root article_path) = some dom →
       findAll (tagNameIs "title") dom = tEl :: tR →
       findAll (tagNameIs "body") dom = bEl :: bR →
       remove_fluff bEl = .ok (b1, nc) →
       (∀ e ∈ nodesOfT b1, imgSkips cfg st e) →
       convert_chapter cfg st article_path chapter_fn none = .ok
         { st with book := { st.book with chapters := st.book.chapters ++
             [{ title := extract_title (getContent tEl), file_name := chapter_fn,
                content := getContent b1 }] } }) := by
  refine ⟨?_, ?_, ?_⟩
  · intro ps src0 hsrc hr hc hn
    exact img_step_skip cfg st ps src0 hsrc (Or.inl ⟨hr, hc, hn⟩)
  · intro b1 h
    exact inlineT_skip cfg st b1 h
  · intro article_path chapter_fn dom tEl bEl b1 nc tR bR hdir hf ht hb hcl hsk
    exact convert_chapter_eq cfg st article_path chapter_fn dom tEl bEl b1 nc b1 tR bR st
      hdir hf ht hb hcl (inlineT_skip cfg st b1 hsk)

/-- Witness for C5: a concrete absent-file `img` is skipped in place; the
concrete body passes inlining; and the concrete article converts to a
chapter with the `src` untouched and no image registered. -/
theorem meaningness_c5_witness :
    img_step cfg5 (initState cfg5) [("src", "pics/x.png")] =
      .ok ([("src", "pics/x.png")], initState cfg5) ∧
    (∃ r, inline_images cfg5 (initState cfg5) body5 = .ok r) ∧
    (inline_images cfg5 (initState cfg5) body5 = .ok (body5, initState cfg5) ∧
     convert_chapter cfg5 (initState cfg5) "a.html" "a.html" none = .ok
       { initState cfg5 with book := { (initState cfg5).book with chapters :=
           [{ title := "Alpha", file_name := "a.html",
              content := "<div class=\"node-content\"><img src=\"pics/x.png\"></img></div>" }] } }) := by
  have h := meaningness_c5 cfg5 (initState cfg5)
  have hsrcs : ∀ e ∈ nodesOfT body5, imgHasSrc e := by
    intro e he
    simp only [body5, ncDiv, nodesOfT, nodesOfL, List.mem_cons, List.mem_append,
      List.not_mem_nil, or_false, List.mem_singleton] at he
    rcases he with rfl | rfl | rfl
    · simp only [imgHasSrc]; intro hh; exact absurd hh (by decide)
    · simp only [imgHasSrc]; intro hh; exact absurd hh (by decide)
    · simp only [imgHasSrc]; intro _; rfl
  refine ⟨h.1 [("src", "pics/x.png")] "pics/x.png" rfl (by decide) rfl,
          h.2.1 body5 hsrcs, ?_⟩
  exact h.2.2 "a.html" "a.html"
    (articleDom "Meaningness (Alpha)" [ncDiv [.tag "img" [("src", "pics/x.png")] []]])
    (.tag "title" [] [.text "Meaningness (Alpha)"])
    (.tag "body" [] [ncDiv [.tag "img" [("src", "pics/x.png")] []]])
    body5 (ncDiv [.tag "img" [("src", "pics/x.png")] []]) [] []
    (by simp [cfg5]) rfl rfl rfl rfl
    (by
      intro e he
      simp only [body5, ncDiv, nodesOfT, nodesOfL, List.mem_cons, List.mem_append,
        List.not_mem_nil, or_false, List.mem_singleton] at he
      rcases he with rfl | rfl | rfl
      · simp only [localMissingImg]; intro hh; exact absurd hh (by decide)
      · simp only [localMissingImg]; intro hh; exact absurd hh (by decide)
      · simp only [localMissingImg]
        intro _
        exact ⟨"pics/x.png", rfl, by decide, rfl⟩)

/-- Witness for C10: a concrete chapter with one remote image (network
down, cold cache) and one absent local image converts with both images
skipped and nothing registered. -/
theorem meaningness_c10_witness :
    img_step cfg10 (initState cfg10) [("src", "http://x.test/i.png")] =
      .ok ([("src", "http://x.test/i.png")], initState cfg10) ∧
    inline_images cfg10 (initState cfg10) body10 = .ok (body10, initState cfg10) ∧
    convert_chapter cfg10 (initState cfg10) "a.html" "a.html" none = .ok
      { initState cfg10 with book := { (initState cfg10).book with chapters :=
          [{ title := "Alpha", file_name := "a.html",
             content := "<div class=\"node-content\"><img src=\"http://x.test/i.png\"></img><img src=\"pics/x.png\"></img></div>" }] } } := by
  have h := meaningness_c10 cfg10 (initState cfg10)
  have hsk : ∀ e ∈ nodesOfT body10, imgSkips cfg10 (initState cfg10) e := by
    intro e he
    simp only [body10, ncDiv, nodesOfT, nodesOfL, List.mem_cons, List.mem_append,
      List.not_mem_nil, or_false, List.mem_singleton] at he
    rcases he with rfl | rfl | rfl | rfl
    · simp only [imgSkips]; intro hh; exact absurd hh (by decide)
    · simp only [imgSkips]; intro hh; exact absurd hh (by decide)
    · simp only [imgSkips]
      intro _
      exact ⟨"http://x.test/i.png", rfl, Or.inl ⟨by decide, rfl, rfl⟩⟩
    · simp only [imgSkips]
      intro _
      exact ⟨"pics/x.png", rfl, Or.inr ⟨by decide, rfl⟩⟩
  refine ⟨h.1 [("src", "http://x.test/i.png")] "http://x.test/i.png" rfl (by decide) rfl rfl,
          h.2.1 body10 hsk, ?_⟩
  exact h.2.2 "a.html" "a.html"
    (articleDom "Meaningness (Alpha)"
      [ncDiv [.tag "img" [("src", "http://x.test/i.png")] [],
              .tag "img" [("src", "pics/x.png")] []]])
    (.tag "title" [] [.text "Meaningness (Alpha)"])
    (.tag "body" [] [ncDiv [.tag "img" [("src", "http://x.test/i.png")] [],
                            .tag "img" [("src", "pics/x.png")] []]])
    body10 (ncDiv [.tag "img" [("src", "http://x.test/i.png")] [],
                   .tag "img" [("src", "pics/x.png")] []]) [] []
    (by simp [cfg10]) rfl rfl rfl rfl hsk

/-! ### Chapter Converter error behaviour -/

/-- C6: for every article path that resolves to a directory, chapter
conversion fails immediately with the spec's `InvalidInputError` (the
`ValueError` of the source) before any side effect: the result is an error
for every run state, filesystem content and network, so no chapter is
registered, no file is read and no image is inlined. -/
theorem meaningness_c6 (cfg : Cfg) (st : RunState) (article_path chapter_fn : String)
    (titleArg : Option String)
    (h : joinPath cfg.html_root article_path ∈ cfg.fs.dirs) :
    convert_chapter cfg st article_path chapter_fn titleArg = .error .valueError := by
  simp only [convert_chapter, if_pos h]

/-- Witness for C6: a concrete directory passed as an article path. -/
theorem meaningness_c6_witness :
    convert_chapter cfg6 (initState cfg6) "adir" "c1.xhtml" none = .error .valueError :=
  meaningness_c6 cfg6 (initState cfg6) "adir" "c1.xhtml" none (by decide)

/-! ### State evolution of the inlining phase -/

/-- A lookup that succeeds still succeeds after appending entries. -/
theorem lookupA_append_isSome {α : Type} (l l' : List (String × α)) (k : String)
    (h : (lookupA l k).isSome = true) : (lookupA (l ++ l') k).isSome = true := by
  induction l with
  | nil => simp [lookupA] at h
  | cons p l ih =>
    obtain ⟨a, b⟩ := p
    simp only [lookupA, List.cons_append] at h ⊢
    by_cases hk : (a == k) = true
    · simp [hk]
    · simp only [hk, Bool.false_eq_true, if_false] at h ⊢
      exact ih h

/-- A lookup finds a freshly appended entry. -/
theorem lookupA_append_self {α : Type} (l : List (String × α)) (k : String) (v : α) :
    (lookupA (l ++ [(k, v)]) k).isSome = true := by
  induction l with
  | nil => simp [lookupA]
  | cons p l ih =>
    obtain ⟨a, b⟩ := p
    simp only [List.cons_append, lookupA]
    by_cases hk : (a == k) = true
    · simp [hk]
    · simp only [hk, Bool.false_eq_true, if_false]
      exact ih

/-- Shape of a successful remote resolution: the image is keyed by the cache
identity, the book is untouched, and the state is unchanged (cache hit) or
extended by exactly the fetched file and one fetch-log entry (cache miss). -/
theorem inline_remote_state (cfg : Cfg) (st : RunState) (src : String) (img : EpubImage)
    (st' : RunState) (h : inline_remote_image cfg st src = .ok (img, st')) :
    img.file_name = cache_path cfg src ∧ img.content = none ∧ st'.book = st.book ∧
    (st' = st ∨ ∃ bs, (lookupA st.tmpFiles (cache_path cfg src)).isSome = false ∧
        st'.tmpFiles = st.tmpFiles ++ [(cache_path cfg src, bs)] ∧
        st'.fetched = st.fetched ++ [src]) := by
  simp only [inline_remote_image] at h
  split at h
  · simp only [Except.ok.injEq, Prod.mk.injEq] at h
    obtain ⟨h1, h2⟩ := h
    subst h1
    subst h2
    exact ⟨rfl, rfl, rfl, Or.inl rfl⟩
  · rename_i hmiss
    split at h
    · simp at h
    · rename_i bs hbs
      simp only [Except.ok.injEq, Prod.mk.injEq] at h
      obtain ⟨h1, h2⟩ := h
      subst h1
      subst h2
      exact ⟨rfl, rfl, rfl, Or.inr ⟨bs, by simpa using hmiss, rfl, rfl⟩⟩

/-- A cache miss followed by a fetch preserves the fetch/cache invariant:
the new fetch's identity was not previously fetched (it was absent from the
cache while every earlier fetch is present), and its file is now cached. -/
theorem fetchInv_extend (cfg : Cfg) (st : RunState) (src : String) (bs : List Nat)
    (hc : (lookupA st.tmpFiles (cache_path cfg src)).isSome = false)
    (hfi : fetchInv cfg st) :
    fetchInv cfg { st with tmpFiles := st.tmpFiles ++ [(cache_path cfg src, bs)],
                           fetched := st.fetched ++ [src] } := by
  obtain ⟨hnd, hmem⟩ := hfi
  constructor
  · simp only [List.map_append, List.map_cons, List.map_nil]
    rw [List.nodup_append]
    refine ⟨hnd, List.nodup_singleton _, ?_⟩
    intro x hx hx1
    simp only [List.mem_singleton] at hx1
    subst hx1
    obtain ⟨u, hu, hcu⟩ := List.mem_map.mp hx
    have hs := hmem u hu
    rw [hcu] at hs
    simp [hs] at hc
  · intro u hu
    rcases List.mem_append.mp hu with h1 | h1
    · exact lookupA_append_isSome _ _ _ (hmem u h1)
    · simp only [List.mem_singleton] at h1
      subst h1
      exact lookupA_append_self _ _ _

/-- One pass of the inlining loop body respects the state contract. -/
theorem img_step_state (cfg : Cfg) (st : RunState) (ps : List (String × String))
    (r : List (String × String) × RunState) (h : img_step cfg st ps = .ok r) :
    stepRel cfg st r.2 := by
  simp only [img_step] at h
  split at h
  · simp at h
  · split at h
    · -- remote branch
      split at h
      · -- IOError caught: skip and continue
        simp only [Except.ok.injEq] at h
        subst h
        exact ⟨rfl, fun k hk => hk, fun hfi => hfi⟩
      · simp at h
      · rename_i img st1 heq
        simp only [Except.ok.injEq] at h
        subst h
        obtain ⟨_, _, hbook, hstate⟩ := inline_remote_state cfg st _ img st1 heq
        rcases hstate with rfl | ⟨bs, hmiss, htmp, hfetch⟩
        · exact ⟨rfl, fun k hk => hk, fun hfi => hfi⟩
        · refine ⟨?_, ?_, ?_⟩
          · show st1.book.chapters = st.book.chapters
            rw [hbook]
          · intro k hk
            show (lookupA st1.tmpFiles k).isSome = true
            rw [htmp]
            exact lookupA_append_isSome _ _ _ hk
          · intro hfi
            have hext := fetchInv_extend cfg st _ bs hmiss hfi
            show fetchInv cfg st1
            constructor
            · show (st1.fetched.map (cache_path cfg)).Nodup
              rw [hfetch]
              exact hext.1
            · intro u hu
              rw [htmp]
              rw [hfetch] at hu
              exact hext.2 u hu
    · -- local branch
      split at h
      · simp only [Except.ok.injEq] at h
        subst h
        exact ⟨rfl, fun k hk => hk, fun hfi => hfi⟩
      · simp at h
      · simp only [Except.ok.injEq] at h
        subst h
        exact ⟨rfl, fun k hk => hk, fun hfi => hfi⟩

/-- The state contract is reflexive. -/
theorem stepRel_refl (cfg : Cfg) (st : RunState) : stepRel cfg st st :=
  ⟨rfl, fun _ hk => hk, fun hfi => hfi⟩

/-- The state contract is transitive. -/
theorem stepRel_trans {cfg : Cfg} {a b c : RunState}
    (h1 : stepRel cfg a b) (h2 : stepRel cfg b c) : stepRel cfg a c :=
  ⟨h2.1.trans h1.1, fun k hk => h2.2.1 k (h1.2.1 k hk), fun hfi => h2.2.2 (h1.2.2 hfi)⟩

/-- The inlining loop respects the state contract (list version). -/
theorem inlineL_state (cfg : Cfg) (cs : List HtmlEl)
    (ih : ∀ c ∈ cs, ∀ st r, inlineT cfg c st = .ok r → stepRel cfg st r.2) :
    ∀ st r, inlineL cfg cs st = .ok r → stepRel cfg st r.2 := by
  induction cs with
  | nil =>
    intro st r h
    simp only [inlineL, Except.ok.injEq] at h
    subst h
    exact stepRel_refl cfg st
  | cons c cs ihl =>
    intro st r h
    simp only [inlineL] at h
    split at h
    · simp at h
    · rename_i c1 st1 heq1
      split at h
      · simp at h
      · rename_i cs1 st2 heq2
        simp only [Except.ok.injEq] at h
        subst h
        exact stepRel_trans (ih c (by simp) st (c1, st1) heq1)
          (ihl (fun c' hc' => ih c' (by simp [hc'])) st1 (cs1, st2) heq2)

/-- The inlining phase respects the state contract: chapters untouched,
cache files persistent, fetch/cache invariant preserved. -/
theorem inlineT_state (cfg : Cfg) (t : HtmlEl) :
    ∀ st r, inlineT cfg t st = .ok r → stepRel cfg st r.2 := by
  induction t using HtmlEl.indOn with
  | ht s =>
    intro st r h
    simp only [inlineT, Except.ok.injEq] at h
    subst h
    exact stepRel_refl cfg st
  | hg n ps cs ih =>
    intro st r h
    simp only [inlineT] at h
    split at h
    · -- img element
      split at h
      · simp at h
      · rename_i ps1 st1 heq1
        split at h
        · simp at h
        · rename_i cs1 st2 heq2
          simp only [Except.ok.injEq] at h
          subst h
          exact stepRel_trans (img_step_state cfg st ps (ps1, st1) heq1)
            (inlineL_state cfg cs ih st1 (cs1, st2) heq2)
    · split at h
      · simp at h
      · rename_i cs1 st1 heq1
        simp only [Except.ok.injEq] at h
        subst h
        exact inlineL_state cfg cs ih st (cs1, st1) heq1

/-- A successful chapter conversion appends exactly one chapter, carrying
the requested file name, and respects the cache contract. -/
theorem convert_chapter_state (cfg : Cfg) (st : RunState) (p fn : String)
    (titleArg : Option String) (st' : RunState)
    (h : convert_chapter cfg st p fn titleArg = .ok st') :
    (∃ ch, st'.book.chapters = st.book.chapters ++ [ch] ∧ ch.file_name = fn) ∧
    (∀ k, (lookupA st.tmpFiles k).isSome = true → (lookupA st'.tmpFiles k).isSome = true) ∧
    (fetchInv cfg st → fetchInv cfg st') := by
  simp only [convert_chapter] at h
  split at h
  · simp at h
  · split at h
    · simp at h
    · rename_i dom hdom
      split at h
      · simp at h
      · rename_i title htitle
        split at h
        · simp at h
        · rename_i bodyEl bR hbody
          split at h
          · simp at h
          · rename_i b1 nc hclean
            split at h
            · simp at h
            · rename_i b2 st1 hinl
              simp only [Except.ok.injEq] at h
              subst h
              have hrel := inlineT_state cfg b1 st (b2, st1) hinl
              refine ⟨⟨{ title := title, file_name := fn, content := getContent b2 }, ?_, rfl⟩,
                ?_, ?_⟩
              · show st1.book.chapters ++ [_] = st.book.chapters ++ [_]
                rw [hrel.1]
              · intro k hk
                exact hrel.2.1 k hk
              · intro hfi
                exact hrel.2.2 hfi

/-- The conversion loop of `__init__` appends one chapter per entry, in entry
order and with the entry's target file name, and preserves the fetch/cache
invariant. -/
theorem convertAll_state (cfg : Cfg) :
    ∀ (es : List (String × String)) (st st' : RunState), convertAll cfg es st = .ok st' →
    (∃ cs, st'.book.chapters = st.book.chapters ++ cs ∧
       cs.map Chapter.file_name = es.map Prod.snd) ∧
    (fetchInv cfg st → fetchInv cfg st') := by
  intro es
  induction es with
  | nil =>
    intro st st' h
    simp only [convertAll, Except.ok.injEq] at h
    subst h
    exact ⟨⟨[], by simp, rfl⟩, fun hfi => hfi⟩
  | cons e es ih =>
    intro st st' h
    simp only [convertAll] at h
    split at h
    · simp at h
    · rename_i st1 heq
      obtain ⟨⟨ch, hch, hfn⟩, _, hinv1⟩ := convert_chapter_state cfg st e.1 e.2 none st1 heq
      obtain ⟨⟨cs, hcs, hmap⟩, hinv2⟩ := ih st1 st' h
      refine ⟨⟨ch :: cs, ?_, ?_⟩, fun hfi => hinv2 (hinv1 hfi)⟩
      · rw [hcs, hch, List.append_assoc, List.singleton_append]
      · simp [hmap, hfn]

/-- C1: for every run over an index page whose TOC lists N article
references, the resulting Book contains exactly N Chapters in TOC document
order (their file names are the TOC targets, in order), and the
reading-order spine is the navigation document first followed by those
chapters in the same order. -/
theorem meaningness_c1 (cfg : Cfg) (st : RunState) (entries : List (String × String))
    (indexDom : HtmlEl)
    (hidx : lookupA cfg.fs.htmlFiles (joinPath cfg.html_root "index.html") = some indexDom)
    (htoc : parse_toc indexDom = .ok entries)
    (hrun : runInit cfg = .ok st) :
    st.book.chapters.length = entries.length ∧
    st.book.chapters.map Chapter.file_name = entries.map Prod.snd ∧
    add_toc_spine st.book = SpineEntry.nav :: st.book.chapters.map SpineEntry.doc ∧
    (add_toc_spine st.book).length = entries.length + 1 := by
  simp only [runInit, hidx, htoc] at hrun
  obtain ⟨⟨cs, hcs, hmap⟩, _⟩ := convertAll_state cfg entries (initState cfg) st hrun
  have hch : st.book.chapters = cs := by simpa [initState] using hcs
  have hlen : st.book.chapters.length = entries.length := by
    rw [hch]
    have hl := congrArg List.length hmap
    simpa using hl
  refine ⟨hlen, ?_, rfl, by simp [add_toc_spine, hlen]⟩
  rw [hch]
  exact hmap

/-- Witness for C1: the two-article run produces two chapters in TOC order
and a nav-first spine of length three. -/
theorem meaningness_c1_witness :
    st1fin.book.chapters.length = [("a.html", "a.html"), ("b.html", "b.html")].length ∧
    st1fin.book.chapters.map Chapter.file_name =
      [("a.html", "a.html"), ("b.html", "b.html")].map Prod.snd ∧
    add_toc_spine st1fin.book = SpineEntry.nav :: st1fin.book.chapters.map SpineEntry.doc ∧
    (add_toc_spine st1fin.book).length = [("a.html", "a.html"), ("b.html", "b.html")].length + 1 :=
  meaningness_c1 cfg1 st1fin [("a.html", "a.html"), ("b.html", "b.html")]
    (tocIndexDom ["a.html", "b.html"]) rfl rfl rfl

/-- A list whose image under `f` has no duplicates contains at most one
element mapping to any given value. -/
theorem nodup_map_filter_len {α β : Type} [BEq β] [LawfulBEq β] (f : α → β) (l : List α)
    (h : (l.map f).Nodup) (y : β) : (l.filter (fun u => f u == y)).length ≤ 1 := by
  induction l with
  | nil => simp
  | cons a l ih =>
    simp only [List.map_cons, List.nodup_cons] at h
    obtain ⟨hna, hnd⟩ := h
    simp only [List.filter_cons]
    by_cases hy : (f a == y) = true
    · simp only [hy, if_true]
      have hnil : l.filter (fun u => f u == y) = [] := by
        rw [List.filter_eq_nil_iff]
        intro u hu
        simp only [beq_iff_eq]
        intro hfu
        apply hna
        have hfa : f a = f u := (beq_iff_eq.mp hy).trans hfu.symm
        rw [hfa]
        exact List.mem_map_of_mem f hu
      simp [hnil]
    · simp only [hy, Bool.false_eq_true, if_false]
      exact ih hnd

/-- C2: cache identity is a pure function of the URL, so any two successful
remote resolutions of the same URL yield the same digest-derived file name;
and across a whole run at most one network fetch is performed per cache
identity (the fetch log, projected to cache identities, stays duplicate-free,
given cache files persist once written). -/
theorem meaningness_c2 (cfg : Cfg) :
    (∀ (sA sB rA rB : RunState) (imgA imgB : EpubImage) (u : String),
        inline_remote_image cfg sA u = .ok (imgA, rA) →
        inline_remote_image cfg sB u = .ok (imgB, rB) →
        imgA.file_name = imgB.file_name ∧ imgA.file_name = cache_path cfg u) ∧
    (∀ st, runInit cfg = .ok st →
        ∀ name, (st.fetched.filter (fun u => cache_path cfg u == name)).length ≤ 1) := by
  constructor
  · intro sA sB rA rB imgA imgB u h1 h2
    obtain ⟨e1, _, _, _⟩ := inline_remote_state cfg sA u imgA rA h1
    obtain ⟨e2, _, _, _⟩ := inline_remote_state cfg sB u imgB rB h2
    exact ⟨e1.trans e2.symm, e1⟩
  · intro st hrun name
    simp only [runInit] at hrun
    split at hrun
    · simp at hrun
    · split at hrun
      · simp at hrun
      · rename_i entries hent
        have hinv : fetchInv cfg st :=
          (convertAll_state cfg entries (initState cfg) st hrun).2
            ⟨by simp [initState], by simp [initState]⟩
        exact nodup_map_filter_len (cache_path cfg) st.fetched hinv.1 name

set_option maxHeartbeats 4000000 in
/-- Witness for C2: resolving the same URL twice over `cfg2` gives the same
cache identity, and the full run (which references that URL twice) fetched
it exactly once. -/
theorem meaningness_c2_witness :
    (({ file_name := cachePath2, content := none } : EpubImage).file_name =
       cache_path cfg2 "http://x.test/i.png") ∧
    (st2.fetched.filter (fun u => cache_path cfg2 u == cachePath2)).length ≤ 1 :=
  ⟨((meaningness_c2 cfg2).1 (initState cfg2) (initState cfg2) st2mid st2mid
      { file_name := cachePath2, content := none } { file_name := cachePath2, content := none }
      "http://x.test/i.png" rfl rfl).2,
   (meaningness_c2 cfg2).2 st2 rfl cachePath2⟩

/-! ### Cache identity evaluations and the remote-content defect -/

/-- Concrete value of `cachePath2`, as `hashlib` would derive it. -/
theorem cachePath2_eval :
    cachePath2 =
      "tmp_images/d1721ecba333d0f251b5c524a236de80173ff3bf93cf1d9939f200a2329e5bff.png" := by
  decide

/-- Concrete value of `cachePath3`, as `hashlib` would derive it. -/
theorem cachePath3_eval :
    cachePath3 =
      "tmp_images/409bb3d344388ef16677ac7be5431b8a7dbadf392a644ae5e4a9ea0f41e690f5.png" := by
  decide

set_option maxHeartbeats 4000000 in
/-- C3, evaluated at the failing input: over `cfg3` the network serves the
bytes `[7, 7]` for the article's single remote image, the run succeeds and
registers an `Image` for it — but that image's `content` attribute is never
assigned (`none`): `_inline_remote_image` writes the fetched bytes only to
the scratch cache file and drops them from the returned `EpubImage`, so the
registered image does not carry the fetched or cached bytes the claim (and
the tool's purpose of embedding images) requires. -/
theorem meaningness_c3_bug :
    runInit cfg3 = .ok st3 ∧
    cfg3.net "http://x.test/pic.png" = some [7, 7] ∧
    st3.book.images = [{ file_name := cachePath3, content := none }] ∧
    ∀ img ∈ st3.book.images, img.content = none := by
  refine ⟨rfl, rfl, rfl, ?_⟩
  intro img h
  simp only [st3, List.mem_singleton] at h
  rw [h]

/-! ### Error propagation -/

/-- A conversion error in the middle of the entry list aborts the whole
loop with that error. -/
theorem convertAll_mid_error (cfg : Cfg) (ent : String × String) (es2 : List (String × String))
    (e : PyErr) :
    ∀ (es1 : List (String × String)) (st st' : RunState),
      convertAll cfg es1 st = .ok st' →
      convert_chapter cfg st' ent.1 ent.2 none = .error e →
      convertAll cfg (es1 ++ ent :: es2) st = .error e := by
  intro es1
  induction es1 with
  | nil =>
    intro st st' hok herr
    simp only [convertAll, Except.ok.injEq] at hok
    subst hok
    simp only [List.nil_append, convertAll, herr]
  | cons f es1 ih =>
    intro st st' hok herr
    simp only [convertAll] at hok
    split at hok
    · simp at hok
    · rename_i st1 heq
      simp only [List.cons_append, convertAll, heq]
      exact ih st1 st' hok herr

/-- C7: when an expected HTML landmark is absent — the TOC container in the
index page, or the title element or body element in an article — the
operation fails with the spec's `StructureError` (the `IndexError` of
`find(..)[0]`), and that error propagates uncaught through `__init__` to the
top level, aborting the run. -/
theorem meaningness_c7 :
    (∀ indexDom, findAll isTocUl indexDom = [] → parse_toc indexDom = .error .indexError) ∧
    (∀ cfg st article_path chapter_fn dom,
       joinPath cfg.html_root article_path ∉ cfg.fs.dirs →
       lookupA cfg.fs.htmlFiles (joinPath cfg.html_root article_path) = some dom →
       findAll (tagNameIs "title") dom = [] →
       convert_chapter cfg st article_path chapter_fn none = .error .indexError) ∧
    (∀ cfg st article_path chapter_fn dom tEl tR,
       joinPath cfg.html_root article_path ∉ cfg.fs.dirs →
       lookupA cfg.fs.htmlFiles (joinPath cfg.html_root article_path) = some dom →
       findAll (tagNameIs "title") dom = tEl :: tR →
       findAll (tagNameIs "body") dom = [] →
       convert_chapter cfg st article_path chapter_fn none = .error .indexError) ∧
    (∀ cfg indexDom e,
       lookupA cfg.fs.htmlFiles (joinPath cfg.html_root "index.html") = some indexDom →
       parse_toc indexDom = .error e →
       runInit cfg = .error e) ∧
    (∀ cfg indexDom entries es1 ent es2 st e,
       lookupA cfg.fs.htmlFiles (joinPath cfg.html_root "index.html") = some indexDom →
       parse_toc indexDom = .ok entries →
       entries = es1 ++ ent :: es2 →
       convertAll cfg es1 (initState cfg) = .ok st →
       convert_chapter cfg st ent.1 ent.2 none = .error e →
       runInit cfg = .error e) := by
  refine ⟨?_, ?_, ?_, ?_, ?_⟩
  · intro dom h
    simp only [parse_toc, h]
  · intro cfg st p fn dom hdir hf ht
    simp only [convert_chapter, if_neg hdir, hf, ht]
  · intro cfg st p fn dom tEl tR hdir hf ht hb
    simp only [convert_chapter, if_neg hdir, hf, ht, hb]
  · intro cfg dom e hidx htoc
    simp only [runInit, hidx, htoc]
  · intro cfg dom entries es1 ent es2 st e hidx htoc hsplit hpre herr
    simp only [runInit, hidx, htoc, hsplit]
    exact convertAll_mid_error cfg ent es2 e es1 (initState cfg) st hpre herr

/-- Witness for C7: a TOC-less index page fails `parse_toc` and aborts the
run; an article without a `title` element, and one without a `body` element,
fail conversion, and the former aborts its run through the loop. -/
theorem meaningness_c7_witness :
    parse_toc (.tag "html" [] [.tag "body" [] [.text "empty"]]) = .error .indexError ∧
    convert_chapter cfg7b (initState cfg7b) "a.html" "a.html" none = .error .indexError ∧
    convert_chapter cfg7c (initState cfg7c) "a.html" "a.html" none = .error .indexError ∧
    runInit cfg7a = .error .indexError ∧
    runInit cfg7b = .error .indexError := by
  refine ⟨meaningness_c7.1 _ rfl,
          meaningness_c7.2.1 cfg7b (initState cfg7b) "a.html" "a.html"
            (.tag "html" [] [.tag "body" [] [ncDiv [.text "hello"]]]) (by decide) rfl rfl,
          meaningness_c7.2.2.1 cfg7c (initState cfg7c) "a.html" "a.html"
            (.tag "html" [] [.tag "title" [] [.text "Meaningness (Alpha)"]])
            (.tag "title" [] [.text "Meaningness (Alpha)"]) [] (by decide) rfl rfl rfl,
          meaningness_c7.2.2.2.1 cfg7a (.tag "html" [] [.tag "body" [] [.text "empty"]])
            .indexError rfl (meaningness_c7.1 _ rfl),
          meaningness_c7.2.2.2.2 cfg7b (tocIndexDom ["a.html"]) [("a.html", "a.html")]
            [] ("a.html", "a.html") [] (initState cfg7b) .indexError rfl rfl rfl rfl
            (meaningness_c7.2.1 cfg7b (initState cfg7b) "a.html" "a.html"
              (.tag "html" [] [.tag "body" [] [ncDiv [.text "hello"]]]) (by decide) rfl rfl)⟩

/-! ### The title heuristic -/

/-- `headD` commutes with `map` when the default is in the image. -/
theorem map_headD {α β : Type} (f : α → β) (l : List α) (d : α) :
    (l.map f).headD (f d) = f (l.headD d) := by
  cases l <;> simp

/-- `getLastD` commutes with `map` when the default is in the image. -/
theorem map_getLastD {α β : Type} (f : α → β) (l : List α) (d : α) :
    (l.map f).getLastD (f d) = f (l.getLastD d) := by
  induction l generalizing d with
  | nil => simp
  | cons a l ih =>
    simp only [List.map_cons, List.getLastD_cons]
    exact ih a

/-- The title heuristic, expressed on character lists: the fragment after
the last `(` and before the first `)` that follows it. -/
theorem extract_title_eq (t : String) :
    extract_title t =
      pyCapitalize ⟨(splitOnCharL ')' ((splitOnCharL '(' t.data).getLastD [])).headD []⟩ := by
  unfold extract_title pySplitC
  rw [show ("" : String) = (⟨[]⟩ : String) from rfl, map_getLastD, map_headD]

/-- Splitting on an absent character returns the whole list. -/
theorem splitOnCharL_not_mem (c : Char) (l : List Char) (h : c ∉ l) :
    splitOnCharL c l = [l] := by
  induction l with
  | nil => rfl
  | cons x xs ih =>
    simp only [List.mem_cons, not_or] at h
    obtain ⟨hx, hxs⟩ := h
    simp only [splitOnCharL, ih hxs]
    rw [if_neg (by simp only [beq_iff_eq]; exact fun hxc => hx hxc.symm)]

/-- On a title with no parentheses, the heuristic degrades to capitalizing
the whole title. -/
theorem extract_title_no_parens (t : String) (h1 : '(' ∉ t.data) (h2 : ')' ∉ t.data) :
    extract_title t = pyCapitalize t := by
  have e1 : (splitOnCharL '(' t.data).getLastD [] = t.data := by
    rw [splitOnCharL_not_mem '(' t.data h1]
    rfl
  rw [extract_title_eq, e1, splitOnCharL_not_mem ')' t.data h2]
  rfl

/-- C8 (amended): for every article whose chapter title is not explicitly
supplied, the title is derived from the document's title element by taking
the content after the last `(` and before the first `)` that follows it,
and capitalizing it (first character uppercased, the rest lowercased); if
the title contains no parentheses, the whole title string is used
(capitalized), not an error. -/
theorem meaningness_c8 (cfg : Cfg) (st : RunState) (article_path chapter_fn : String)
    (dom tEl bEl b1 nc b2 : HtmlEl) (tR bR : List HtmlEl) (st1 : RunState)
    (hdir : joinPath cfg.html_root article_path ∉ cfg.fs.dirs)
    (hf : lookupA cfg.fs.htmlFiles (joinPath cfg.html_root article_path) = some dom)
    (ht : findAll (tagNameIs "title") dom = tEl :: tR)
    (hb : findAll (tagNameIs "body") dom = bEl :: bR)
    (hcl : remove_fluff bEl = .ok (b1, nc))
    (hi : inline_images cfg st b1 = .ok (b2, st1)) :
    convert_chapter cfg st article_path chapter_fn none = .ok
      { st1 with book := { st1.book with chapters := st1.book.chapters ++
          [{ title := pyCapitalize
               ⟨(splitOnCharL ')' ((splitOnCharL '(' (getContent tEl).data).getLastD [])).headD []⟩,
             file_name := chapter_fn, content := getContent b2 }] } } ∧
    ('(' ∉ (getContent tEl).data → ')' ∉ (getContent tEl).data →
       extract_title (getContent tEl) = pyCapitalize (getContent tEl)) := by
  constructor
  · rw [← extract_title_eq]
    exact convert_chapter_eq cfg st article_path chapter_fn dom tEl bEl b1 nc b2 tR bR st1
      hdir hf ht hb hcl hi
  · intro h1 h2
    exact extract_title_no_parens (getContent tEl) h1 h2

/-- Counterexample to C8 as stated: on the page title `"t (a) b) c"` the
code takes the content before the *first* `)` after the last `(` and yields
the chapter title `"A"`, while the claimed rule — before the *last* `)` —
yields `"A) b"`. -/
theorem meaningness_c8_counterexample :
    runInit cfg8 = .ok st8fin ∧
    st8fin.book.chapters.map Chapter.title = ["A"] ∧
    extract_title "t (a) b) c" = "A" ∧
    spec_title_rule "t (a) b) c" = "A) b" ∧
    extract_title "t (a) b) c" ≠ spec_title_rule "t (a) b) c" :=
  ⟨rfl, rfl, rfl, rfl, by decide⟩

/-- Witness for C8 (amended): a concrete article whose page title has no
parentheses converts successfully, and the derived chapter title is the
whole title, capitalized. -/
theorem meaningness_c8_witness :
    (convert_chapter cfg8b (initState cfg8b) "a.html" "a.html" none = .ok
      { initState cfg8b with book := { (initState cfg8b).book with chapters :=
          [{ title := "Plain title", file_name := "a.html",
             content := "<div class=\"node-content\">hello</div>" }] } }) ∧
    extract_title "plain title" = pyCapitalize "plain title" := by
  have h := meaningness_c8 cfg8b (initState cfg8b) "a.html" "a.html"
    (articleDom "plain title" [ncDiv [.text "hello"]])
    (.tag "title" [] [.text "plain title"])
    (.tag "body" [] [ncDiv [.text "hello"]])
    (.tag "body" [] [ncDiv [.text "hello"]])
    (ncDiv [.text "hello"])
    (.tag "body" [] [ncDiv [.text "hello"]])
    [] [] (initState cfg8b)
    (by decide) rfl rfl rfl rfl rfl
  exact ⟨h.1, h.2 (by decide) (by decide)⟩

/-! ### Cache identity as a pure function -/

/-- One compression round always yields an 8-word state. -/
theorem foldl_compressStep_length (l : List (Nat × Nat)) :
    ∀ h : List Nat, (l.foldl compressStep h).length = 8 ∨ l.foldl compressStep h = h := by
  induction l with
  | nil => intro h; exact Or.inr rfl
  | cons a l ih =>
    intro h
    simp only [List.foldl_cons]
    rcases ih (compressStep h a) with h1 | h1
    · exact Or.inl h1
    · rw [h1]
      exact Or.inl rfl

/-- Block compression preserves the 8-word state length. -/
theorem compressBlock_length (h blk : List Nat) (hh : h.length = 8) :
    (compressBlock h blk).length = 8 := by
  unfold compressBlock
  have hfin : ((K64.zip (sched blk 48)).foldl compressStep h).length = 8 := by
    rcases foldl_compressStep_length (K64.zip (sched blk 48)) h with h1 | h1
    · exact h1
    · rw [h1, hh]
  rw [List.length_map, List.length_zip, hh, hfin]
  rfl

/-- The SHA-256 word digest always has eight words. -/
theorem sha256Words_length (msg : List Nat) : (sha256Words msg).length = 8 := by
  unfold sha256Words
  generalize blocksOf (bytesToWords (padBytes msg)) = bs
  have hgen : ∀ (acc : List Nat), acc.length = 8 → (bs.foldl compressBlock acc).length = 8 := by
    induction bs with
    | nil => intro acc h; simpa using h
    | cons b bs ih =>
      intro acc h
      simp only [List.foldl_cons]
      exact ih _ (compressBlock_length acc b h)
  exact hgen H0 rfl

/-- Each word contributes eight hexadecimal characters. -/
theorem flatMap_toHex8_length (ws : List Nat) : (ws.flatMap toHex8).length = 8 * ws.length := by
  induction ws with
  | nil => simp
  | cons w ws ih =>
    simp only [List.flatMap_cons, List.length_append, ih, List.length_cons]
    have h8 : (toHex8 w).length = 8 := by simp [toHex8]
    rw [h8]
    ring

/-- The hex digest of any string has exactly 64 characters. -/
theorem sha256hexStr_length (s : String) : (sha256hexStr s).data.length = 64 := by
  show ((sha256Words (utf8Encode s)).flatMap toHex8).length = 64
  rw [flatMap_toHex8_length, sha256Words_length]

/-- Equal digest-derived file names force equal hex digests: the digest is a
fixed-length prefix of the file name. -/
theorem digest_name_inj_hex (u v : String) (h : digest_name u = digest_name v) :
    sha256hexStr u = sha256hexStr v := by
  unfold digest_name at h
  have hd : (sha256hexStr u).data ++ ("." ++ (pySplitC '.' u).getLastD "").data =
            (sha256hexStr v).data ++ ("." ++ (pySplitC '.' v).getLastD "").data := by
    have h1 := congrArg String.data h
    simpa [String.data_append] using h1
  have hlen : (sha256hexStr u).data.length = (sha256hexStr v).data.length := by
    rw [sha256hexStr_length, sha256hexStr_length]
  obtain ⟨h2, _⟩ := List.append_inj hd hlen
  cases hu : sha256hexStr u with
  | mk du =>
    cases hv : sha256hexStr v with
    | mk dv =>
      rw [hu, hv] at h2
      exact congrArg String.mk (by simpa using h2)

/-- C4: cache identity is a pure function of the URL string — for every
remote URL it equals the SHA-256 hex digest of the UTF-8-encoded URL,
concatenated with a dot and the URL's final dot-segment as extension; the
same URL always yields the same filename; and (rendering "distinct with
overwhelming probability" as its deterministic core) any two URLs with
distinct digests yield distinct filenames. -/
theorem meaningness_c4 :
    (∀ u, digest_name u = sha256hexStr u ++ "." ++ (pySplitC '.' u).getLastD "") ∧
    (∀ u v, u = v → digest_name u = digest_name v) ∧
    (∀ u v, sha256hexStr u ≠ sha256hexStr v → digest_name u ≠ digest_name v) :=
  ⟨fun _ => rfl, fun u v h => by rw [h],
   fun u v hne h => hne (digest_name_inj_hex u v h)⟩

set_option maxHeartbeats 4000000 in
/-- Witness for C4: two URLs differing in one character have distinct hex
digests, hence distinct cache file names; and equality of URLs gives
equality of names. -/
theorem meaningness_c4_witness :
    sha256hexStr "http://a.x/p.png" ≠ sha256hexStr "http://a.x/q.png" ∧
    digest_name "http://a.x/p.png" ≠ digest_name "http://a.x/q.png" ∧
    digest_name "http://a.x/p.png" = digest_name "http://a.x/p.png" :=
  have hne : sha256hexStr "http://a.x/p.png" ≠ sha256hexStr "http://a.x/q.png" := by decide
  ⟨hne, meaningness_c4.2.2 "http://a.x/p.png" "http://a.x/q.png" hne,
   meaningness_c4.2.1 "http://a.x/p.png" "http://a.x/p.png" rfl⟩
